import Mathlib

/-!
Verification of the search-instruction compiler (parser.ts, pipeline_builder.ts,
searchBuilder.ts, instruction.model.ts).

Strings are modelled as lists of characters (type Str below).  Every JavaScript
regular expression of the source is embedded as an executable Lean function on
Str that decides the same language, with JS semantics: the dot does not match
line terminators, word characters are ASCII letters, digits and underscore,
and alternations are resolved in source order with backtracking where the
result depends on it.
-/

/-- Strings of the embedded program, as lists of characters. -/
abbrev Str := List Char

/-- Conversion helper for concrete inputs. -/
def str (s : String) : Str := s.toList

/-- JS word character, the class backslash-w: ASCII letters, digits, underscore. -/
def isWordChar (c : Char) : Bool :=
  (('a' ≤ c && c ≤ 'z') || ('A' ≤ c && c ≤ 'Z') || ('0' ≤ c && c ≤ '9') || c == '_')

/-- Character class A-Z0-9 used by every field-shape regex of the source. -/
def isUpperAlnum (c : Char) : Bool :=
  (('A' ≤ c && c ≤ 'Z') || ('0' ≤ c && c ≤ '9'))

/-- Decimal digit, the class backslash-d. -/
def isDigitCh (c : Char) : Bool := ('0' ≤ c && c ≤ '9')

/-- JS whitespace (the class backslash-s and the set trimmed by String.trim). -/
def isJsSpace (c : Char) : Bool :=
  (c == ' ' || c == '\t' || c == '\n' || c == '\r' ||
   c == Char.ofNat 11 || c == Char.ofNat 12 || c == Char.ofNat 160 ||
   c == Char.ofNat 0x2028 || c == Char.ofNat 0x2029 || c == Char.ofNat 0xfeff)

/-- JS line terminators, the characters the unflagged dot does not match. -/
def isLineTerm (c : Char) : Bool :=
  (c == '\n' || c == '\r' || c == Char.ofNat 0x2028 || c == Char.ofNat 0x2029)

/-- A run of characters matchable by the dot: no line terminator among them. -/
def noLT (l : Str) : Bool := l.all (fun c => !isLineTerm c)

/-- JS String.trim: drop whitespace from both ends. -/
def jsTrim (l : Str) : Str :=
  ((l.dropWhile isJsSpace).reverse.dropWhile isJsSpace).reverse

/-- JS String.toLowerCase restricted to the ASCII range used by the program. -/
def jsToLower (l : Str) : Str := l.map Char.toLower

/-- JS replace of the global pattern anchored-q-or-q-anchored with the empty
string: removes one leading and one trailing occurrence of the character q. -/
def stripEdge (q : Char) (l : Str) : Str :=
  let l1 := match l with
    | [] => []
    | c :: rest => if c == q then rest else c :: rest
  match l1.reverse with
  | [] => []
  | c :: rest => if c == q then rest.reverse else l1

/-- Quote stripping as written in the source: first double quotes, then single
quotes (replace with pattern anchored-quote, global, applied twice). -/
def stripQuotes (l : Str) : Str := stripEdge '\'' (stripEdge '"' l)

/-- PadStart normalisation of comparison and range values: values shorter than
4 characters are left-padded with the character 0 to exactly 4. -/
def padTo4 (l : Str) : Str :=
  if l.length < 4 then List.replicate (4 - l.length) '0' ++ l else l

/-- Search for the unanchored pattern word-chars-then-colon: true when some
word character is immediately followed by a colon. -/
def hasWordColon : Str → Bool
  | a :: b :: rest => (isWordChar a && b == ':') || hasWordColon (b :: rest)
  | _ => false

/-- Shape regex of the keys field: 5 to 6 characters from A-Z0-9, anchored. -/
def matchKeys (l : Str) : Bool :=
  (l.length == 5 || l.length == 6) && l.all isUpperAlnum

/-- Shape regex of the lines field: exactly 3 characters from A-Z0-9. -/
def matchLines (l : Str) : Bool := l.length == 3 && l.all isUpperAlnum

/-- Shape regex of the brands field: 2 to 3 characters from A-Z0-9. -/
def matchBrands (l : Str) : Bool :=
  (l.length == 2 || l.length == 3) && l.all isUpperAlnum

/-- Shape regex of the items field: 6 characters from A-Z0-9, or 5 such
characters and one whitespace, followed by 4 characters from A-Z0-9. -/
def matchItems (l : Str) : Bool :=
  l.length == 10 &&
  ((l.take 6).all isUpperAlnum ||
    ((l.take 5).all isUpperAlnum && ((l.drop 5).take 1).all isJsSpace)) &&
  (l.drop 6).all isUpperAlnum

/-- Anchored pattern of 1 to 4 decimal digits. -/
def digits14 (l : Str) : Bool :=
  1 ≤ l.length && l.length ≤ 4 && l.all isDigitCh

/-- Capture of the anchored pattern: one or more word characters, a colon, one
quote (double or single), a nonempty dot-run, a closing quote at the very end.
Returns the alias and the quoted value.  The greedy word-run is deterministic
because a colon is not a word character. -/
def fieldMatchQuoted (l : Str) : Option (Str × Str) :=
  match l.dropWhile isWordChar with
  | ':' :: q1 :: rest =>
    if (l.takeWhile isWordChar).isEmpty then none
    else if q1 == '"' || q1 == '\'' then
      match rest.reverse with
      | q2 :: midrev =>
        if (q2 == '"' || q2 == '\'') && !midrev.isEmpty && noLT midrev.reverse
        then some (l.takeWhile isWordChar, midrev.reverse) else none
      | [] => none
    else none
  | _ => none

/-- Capture of the anchored pattern: one or more word characters, a colon, a
nonempty dot-run to the end.  Returns the alias and the remainder. -/
def fieldMatchUnq (l : Str) : Option (Str × Str) :=
  match l.dropWhile isWordChar with
  | ':' :: rest =>
    if (l.takeWhile isWordChar).isEmpty || rest.isEmpty || !noLT rest then
      none
    else some (l.takeWhile isWordChar, rest)
  | _ => none

/-- Capture of the anchored pattern: an opening bracket, a nonempty run without
a closing bracket, a closing bracket, a nonempty dot-run to the end.  The
greedy inner run necessarily stops at the first closing bracket. -/
def keyPreSplit (l : Str) : Option (Str × Str) :=
  match l with
  | c :: rest =>
    if c == '[' then
      match rest.dropWhile (fun c => c != ']') with
      | d :: tail =>
        if d == ']' then
          (if (rest.takeWhile (fun c => c != ']')).isEmpty || tail.isEmpty ||
              !noLT tail then none
           else some (rest.takeWhile (fun c => c != ']'), tail))
        else none
      | [] => none
    else none
  | [] => none

/-- Capture of the anchored pattern: word characters, a colon, an opening
bracket, a nonempty bracket-free run, a closing bracket at the very end. -/
def exactBracket (l : Str) : Option Str :=
  let w := l.takeWhile isWordChar
  match l.dropWhile isWordChar with
  | ':' :: '[' :: rest =>
    if w.isEmpty then none
    else
      let inner := rest.takeWhile (fun c => c != ']')
      match rest.dropWhile (fun c => c != ']') with
      | [']'] => if inner.isEmpty then none else some inner
      | _ => none
  | _ => none

/-- Comparison operators of the source. -/
inductive CompOp where
  | gt | lt | gte | lte
  deriving DecidableEq, Repr

/-- Operator for a leading angle character, with or without the equals sign. -/
def opOf (c : Char) (eq : Bool) : CompOp :=
  if c == '>' then (if eq then CompOp.gte else CompOp.gt)
  else (if eq then CompOp.lte else CompOp.lt)

/-- Split of the anchored comparison pattern: an operator from the ordered
alternation, then a nonempty dot-run to the end.  Mirrors the backtracking of
the JS engine: the two-character operator is preferred, and when the tail
after the equals sign cannot satisfy the final dot-run the engine retries
with the one-character operator, leaving the equals sign in the value. -/
def compParse (l : Str) : Option (CompOp × Str) :=
  match l with
  | [] => none
  | c :: rest =>
    if c == '>' || c == '<' then
      match rest with
      | [] => none
      | r :: rest2 =>
        if r == '=' then
          (if !rest2.isEmpty && noLT rest2 then some (opOf c true, rest2)
           else if noLT rest then some (opOf c false, rest)
           else none)
        else (if noLT rest then some (opOf c false, rest) else none)
    else none

/-- Test of the unanchored comparison pattern (no end anchor): an operator
followed by at least one dot-matchable character. -/
def isCompPat (l : Str) : Bool :=
  match l with
  | c :: r :: _ => (c == '>' || c == '<') && (r == '=' || !isLineTerm r)
  | _ => false

/-- Index of the last two-character range separator that leaves a nonempty
bound on each side, scanning a reversed suffix. -/
def lastSepSplit : Str → Option (Str × Str)
  | [] => none
  | c :: rest =>
    match lastSepSplit rest with
    | some (a, b) => some (c :: a, b)
    | none =>
      match rest with
      | r :: b =>
        if c == '<' && r == '>' && !b.isEmpty then some ([], b) else none
      | [] => none

/-- Split of the anchored range pattern: a greedy nonempty dot-run, the
literal separator less-than greater-than, a nonempty dot-run to the end.
The greedy first group selects the last admissible separator. -/
def rangeSplit (l : Str) : Option (Str × Str) :=
  if !noLT l then none
  else match lastSepSplit l with
    | some (a, b) => if a.isEmpty then none else some (a, b)
    | none => none

/-- Test of the anchored pattern quote, nonempty dot-run, quote: first and
last characters are the quote q and the interior is a nonempty dot-run. -/
def quotedWrap (q : Char) (l : Str) : Bool :=
  match l with
  | c :: rest =>
    if c == q then
      match rest.reverse with
      | c2 :: midrev => c2 == q && !midrev.isEmpty && noLT midrev.reverse
      | [] => false
    else false
  | [] => false

/-- Test of the regex classifier: the value contains one of the characters
star, caret, dollar, or is fully wrapped in double or single quotes. -/
def isRegexPat (l : Str) : Bool :=
  l.any (fun c => c == '*' || c == '^' || c == '$') ||
  quotedWrap '"' l || quotedWrap '\'' l

/-- Scan for a closing bracket after at least one dot-matchable character,
aborting at a line terminator (helper of the unanchored bracket test). -/
def seekClose : Str → Bool → Bool
  | [], _ => false
  | c :: rest, seen =>
    if c == ']' && seen then true
    else if isLineTerm c then false
    else seekClose rest true

/-- Test of the unanchored pattern: an opening bracket, at least one
dot-matchable character, a closing bracket, anywhere in the value. -/
def bracketTest : Str → Bool
  | [] => false
  | c :: rest => (c == '[' && seekClose rest false) || bracketTest rest

/-- Reserved bracketed words of the cached tokenizer, compared after ASCII
upper-casing (the source regex carries the case-insensitive flag). -/
def reservedWords : List Str :=
  [str ("ITEM]"), str ("ITEMS]"), str ("KEY]"), str ("KEYS]"),
   str ("BRAND]"), str ("BRANDS]"), str ("LINE]"), str ("LINES]"),
   str ("ACC]")]

/-- Test of the anchored, case-insensitive pattern: an opening bracket, one of
the reserved words ITEM, ITEMS, KEY, KEYS, BRAND, BRANDS, LINE, LINES, ACC,
a closing bracket; the rest of the value is unconstrained. -/
def reservedBracket (l : Str) : Bool :=
  match l with
  | c :: rest =>
    c == '[' && reservedWords.any (fun w => w.isPrefixOf (rest.map Char.toUpper))
  | [] => false

/-- Anchored numeric comparison accepted after a bracketed qualifier: one
angle character, an optional equals sign, one or more digits. -/
def compNum (l : Str) : Bool :=
  match l with
  | c :: '=' :: rest =>
    (c == '>' || c == '<') && !rest.isEmpty && rest.all isDigitCh
  | c :: rest =>
    (c == '>' || c == '<') && !rest.isEmpty && rest.all isDigitCh
  | [] => false

/-- Anchored numeric range accepted after a bracketed qualifier: digits, the
literal separator, digits. -/
def rangeNum (l : Str) : Bool :=
  match lastSepSplit l with
  | some (a, b) =>
    !a.isEmpty && a.all isDigitCh && b.all isDigitCh &&
    !(a.any (fun c => c == '<' || c == '>'))
  | none => false

/-- Test for regex metacharacters star, caret, dollar, backslash, dot, plus,
question mark anywhere in the value. -/
def regexMeta (l : Str) : Bool :=
  l.any (fun c =>
    c == '*' || c == '^' || c == '$' || c == '\\' || c == '.' ||
    c == '+' || c == '?')

/-- Attempt of one quoted alternative of the tokenizer regex at the current
position: word characters, a colon, the quote q, a nonempty run without q,
the quote q again.  Returns the matched token and the remaining input. -/
def quotedAlt (q : Char) (l : Str) : Option (Str × Str) :=
  match l.dropWhile isWordChar with
  | ':' :: c1 :: rest =>
    if (l.takeWhile isWordChar).isEmpty then none
    else if c1 != q then none
    else
      let m := rest.takeWhile (fun c => c != q)
      if m.isEmpty then none
      else match rest.dropWhile (fun c => c != q) with
        | _ :: rest2 =>
          some (l.takeWhile isWordChar ++ ':' :: q :: m ++ [q], rest2)
        | [] => none
  | _ => none

theorem quotedAlt_shrink (q : Char) (l tok rest : Str)
    (h : quotedAlt q l = some (tok, rest)) : rest.length < l.length := by
  have hlen := congrArg List.length
    (List.takeWhile_append_dropWhile (p := isWordChar) (l := l))
  simp only [List.length_append] at hlen
  unfold quotedAlt at h
  split at h
  · rename_i c1 rest1 hd
    rw [hd] at hlen
    simp only [List.length_cons] at hlen
    split at h
    · simp at h
    · split at h
      · simp at h
      · split at h
        · rename_i x midrev heq
          have h2 : (rest1.dropWhile (fun c => c != q)).length ≤ rest1.length :=
            (rest1.dropWhile_sublist _).length_le
          rw [heq] at h2
          simp only [List.length_cons] at h2
          simp at h
          obtain ⟨-, -, rfl⟩ := h
          omega
        · simp at h
  · simp at h

/-- Global scan of the tokenizer regex, structured on a character budget so
that every step consumes at least one character: at each position try the
two quoted alternatives in order, then the run of non-whitespace characters;
whitespace between matches is skipped. -/
def jsTokensF : Nat → Str → List Str
  | 0, _ => []
  | fuel + 1, l =>
    match l with
    | [] => []
    | c :: rest =>
      if isJsSpace c then jsTokensF fuel rest
      else match quotedAlt '"' (c :: rest) with
        | some (tok, r) => tok :: jsTokensF fuel r
        | none =>
          match quotedAlt '\'' (c :: rest) with
          | some (tok, r) => tok :: jsTokensF fuel r
          | none =>
            ((c :: rest).takeWhile (fun c => !isJsSpace c)) ::
              jsTokensF fuel ((c :: rest).dropWhile (fun c => !isJsSpace c))

/-- Token list of an input: the scan with the input length as the budget,
which every step strictly decreases, so the budget never runs out. -/
def jsTokens (l : Str) : List Str := jsTokensF l.length l

/-- Logical fields of a parsed instruction. -/
inductive PatternField where
  | keys | items | lines | brands
  deriving DecidableEq, Repr

/-- Pattern union of the parser: literal value, regular expression,
comparison, range; each optionally carries a bracketed key qualifier. -/
inductive Pattern where
  | value (v : Str) (keyPre : Option Str)
  | regex (v : Str) (keyPre : Option Str)
  | comparison (op : CompOp) (v : Str) (keyPre : Option Str)
  | range (a b : Str) (keyPre : Option Str)
  deriving DecidableEq, Repr

/-- Alias table shared by InstructionParser.fieldAliases and
ParserPipeline.aliasMap, keyed by the lower-cased alias. -/
def aliasPairs : List (Str × PatternField) :=
  [(str ("key"), PatternField.keys), (str ("keys"), PatternField.keys),
   (str ("item"), PatternField.items), (str ("items"), PatternField.items),
   (str ("brand"), PatternField.brands), (str ("brands"), PatternField.brands),
   (str ("line"), PatternField.lines), (str ("lines"), PatternField.lines),
   (str ("clave"), PatternField.keys), (str ("claves"), PatternField.keys),
   (str ("ítem"), PatternField.items), (str ("ítems"), PatternField.items),
   (str ("artículo"), PatternField.items), (str ("articulo"), PatternField.items),
   (str ("artículos"), PatternField.items), (str ("articulos"), PatternField.items),
   (str ("producto"), PatternField.items), (str ("productos"), PatternField.items),
   (str ("línea"), PatternField.lines), (str ("linea"), PatternField.lines),
   (str ("líneas"), PatternField.lines), (str ("lineas"), PatternField.lines),
   (str ("marca"), PatternField.brands), (str ("marcas"), PatternField.brands)]

/-- Object lookup of an alias after JS toLowerCase. -/
def aliasLookup (a : Str) : Option PatternField :=
  List.lookup (jsToLower a) aliasPairs

/-- InstructionParser.parseComparison: split the comparison and left-pad the
value to at least 4 characters. -/
def parseComparison (l : Str) : Option (CompOp × Str) :=
  (compParse l).map (fun p => (p.1, padTo4 p.2))

/-- InstructionParser.parseRange: split the range and left-pad both bounds. -/
def parseRange (l : Str) : Option (Str × Str) :=
  (rangeSplit l).map (fun p => (padTo4 p.1, padTo4 p.2))

/-- Classification core of InstructionParser.extractPatterns on the
qualifier-stripped body: comparison, range, regex or literal value, in that
order.  The range test and the range split decide the same anchored
language, so the source test-then-parse pair collapses into one match. -/
def epBody (kp : Option Str) (pv : Str) : List Pattern :=
  if isCompPat pv then
    match parseComparison pv with
    | some (op, v) => [Pattern.comparison op v kp]
    | none => []
  else match parseRange pv with
    | some (a, b) => [Pattern.range a b kp]
    | none =>
      if isRegexPat pv then [Pattern.regex (stripQuotes pv) kp]
      else [Pattern.value (stripQuotes pv) kp]

/-- InstructionParser.extractPatterns: strip an optional bracketed
qualifier, then classify the remaining body. -/
def extractPatterns (value : Str) : List Pattern :=
  match keyPreSplit value with
  | some (p, rest) => epBody (some p) rest
  | none => epBody none value

/-- Per-pattern default of InstructionParser.determineField: comparison,
range and regex patterns default to items; a literal value re-tests the
shape regexes (on the same value) in the order items, keys, lines, brands. -/
def patternDefaultField (value : Str) : Pattern → Option PatternField
  | Pattern.comparison _ _ _ => some PatternField.items
  | Pattern.range _ _ _ => some PatternField.items
  | Pattern.regex _ _ => some PatternField.items
  | Pattern.value _ _ =>
    if matchItems value then some PatternField.items
    else if matchKeys value then some PatternField.keys
    else if matchLines value then some PatternField.lines
    else if matchBrands value then some PatternField.brands
    else none

/-- InstructionParser.determineField: the shape regexes are tested in the
object insertion order keys, items, lines, brands; when none matches, the
first pattern with a default field decides. -/
def determineField (value : Str) (patterns : List Pattern) :
    Option PatternField :=
  if matchKeys value then some PatternField.keys
  else if matchItems value then some PatternField.items
  else if matchLines value then some PatternField.lines
  else if matchBrands value then some PatternField.brands
  else patterns.findSome? (patternDefaultField value)

/-- Include and exclude lists of one logical field. -/
structure FieldSet where
  inc : List Pattern
  exc : List Pattern
  deriving DecidableEq, Repr

/-- Working state of InstructionParser.parseInstruction.  The description,
built in the source by appending token-plus-space to a string, is kept as the
ordered list of appended tokens; finalisation joins and trims it. -/
structure PR where
  keys : FieldSet
  items : FieldSet
  lines : FieldSet
  brands : FieldSet
  descToks : List Str
  deriving DecidableEq, Repr

/-- ParsedResult as exposed by the source: four field sets and the final
description string. -/
structure Parsed where
  keys : FieldSet
  items : FieldSet
  lines : FieldSet
  brands : FieldSet
  desc : Str
  deriving DecidableEq, Repr

/-- Empty working state. -/
def emptyPR : PR := ⟨⟨[], []⟩, ⟨[], []⟩, ⟨[], []⟩, ⟨[], []⟩, []⟩

/-- Field projection. -/
def PR.getF (r : PR) : PatternField → FieldSet
  | PatternField.keys => r.keys
  | PatternField.items => r.items
  | PatternField.lines => r.lines
  | PatternField.brands => r.brands

/-- Field update. -/
def PR.setF (r : PR) (f : PatternField) (s : FieldSet) : PR :=
  match f with
  | PatternField.keys => { r with keys := s }
  | PatternField.items => { r with items := s }
  | PatternField.lines => { r with lines := s }
  | PatternField.brands => { r with brands := s }

/-- InstructionParser.assignPatterns: push every pattern onto the include or
exclude list of the field. -/
def assignPats (r : PR) (pats : List Pattern) (f : PatternField)
    (exclude : Bool) : PR :=
  let fs := r.getF f
  r.setF f
    (if exclude then { fs with exc := fs.exc ++ pats }
     else { fs with inc := fs.inc ++ pats })

/-- Append one unclassified token to the description accumulator. -/
def PR.addDesc (r : PR) (tok : Str) : PR :=
  { r with descToks := r.descToks ++ [tok] }

/-- Exclusion marker handling: a leading dash flags the token as an
exclusion and is stripped. -/
def stripDash (tok : Str) : Bool × Str :=
  match tok with
  | c :: rest => if c == '-' then (true, rest) else (false, c :: rest)
  | [] => (false, [])

/-- Field resolution of InstructionParser.parseInstruction: the quoted form
is tried first, then the unquoted form; in both forms the value is replaced
by the capture even when the alias is unknown. -/
def ipResolveField (value : Str) : Option PatternField × Str :=
  match fieldMatchQuoted value with
  | some (a, v) => (aliasLookup a, v)
  | none =>
    match fieldMatchUnq value with
    | some (a, v) => (aliasLookup a, v)
    | none => (none, value)

/-- Body of one loop iteration of parseInstruction after the merge check:
extract patterns, assign them to the explicit or determined field, or append
the original token to the description. -/
def stepAssign (acc : PR) (exclude : Bool) (fOpt : Option PatternField)
    (value : Str) (tok : Str) : PR :=
  let pats := extractPatterns value
  if pats.isEmpty then
    (if fOpt.isNone then acc.addDesc tok else acc)
  else
    match fOpt with
    | some f => assignPats acc pats f exclude
    | none =>
      match determineField value pats with
      | some f => assignPats acc pats f exclude
      | none => acc.addDesc tok

/-- Main loop of InstructionParser.parseInstruction over the token list.
The set of processed indices of the source only ever receives the next
index, immediately before a continue, so the loop is a recursion that may
consume two tokens at once: when a token has no field, it is tentatively
merged with the following raw token and, if the merged value has the item
compound shape, both tokens are consumed into one items entry.  The second
component counts those merges (a ghost counter; the source records the same
information in its processed-index set). -/
def parseTokensM : List Str → PR → PR × Nat
  | [], acc => (acc, 0)
  | tok :: rest, acc =>
    let ex := stripDash tok
    let fv := ipResolveField ex.2
    match fv.1 with
    | none =>
      match rest with
      | next :: rest2 =>
        let comb := fv.2 ++ ' ' :: next
        if matchItems comb then
          let r := parseTokensM rest2
            (assignPats acc (extractPatterns comb) PatternField.items ex.1)
          (r.1, r.2 + 1)
        else parseTokensM (next :: rest2) (stepAssign acc ex.1 none fv.2 tok)
      | [] => parseTokensM [] (stepAssign acc ex.1 none fv.2 tok)
    | some f => parseTokensM rest (stepAssign acc ex.1 (some f) fv.2 tok)

/-- Description string: the accumulated tokens, each followed by one space. -/
def descJoin (toks : List Str) : Str := (toks.map (fun t => t ++ [' '])).flatten

/-- Finalisation of parseInstruction: join the accumulated description and
trim it (the source trims the accumulated string in place). -/
def PR.finalize (r : PR) : Parsed :=
  ⟨r.keys, r.items, r.lines, r.brands, jsTrim (descJoin r.descToks)⟩

/-- InstructionParser.tokenize: when the instruction contains no field-alias
marker anywhere, the whole instruction is the only token; otherwise the
global tokenizer regex is scanned. -/
def tokenize (instruction : Str) : List Str :=
  if hasWordColon instruction then jsTokens instruction else [instruction]

/-- Result of constructing InstructionParser on an instruction: an empty
result when the trimmed instruction is empty, otherwise the parsed tokens. -/
def instructionParserResult (instruction : Str) : Parsed :=
  if (jsTrim instruction).isEmpty then emptyPR.finalize
  else ((parseTokensM (tokenize instruction) emptyPR).1).finalize

/-- PatternData stored in an Instruction document (instruction.interface.ts):
the discriminated union over comparison, range, regex and value, where only
the regex variant may carry an extractedValue. -/
inductive PData where
  | comparison (keyPre : Option Str) (op : CompOp) (v : Str)
  | range (keyPre : Option Str) (a b : Str)
  | regex (keyPre : Option Str) (v : Str) (ev : Option Str)
  | value (keyPre : Option Str) (v : Str)
  deriving DecidableEq, Repr

/-- KeyPrefix property of a PData object. -/
def PData.keyP : PData → Option Str
  | PData.comparison kp _ _ => kp
  | PData.range kp _ _ => kp
  | PData.regex kp _ _ => kp
  | PData.value kp _ => kp

/-- JS truthiness of an optional string property: absent and empty are both
falsy. -/
def strTruthy : Option Str → Option Str
  | some [] => none
  | x => x

/-- ParserPipeline.determineField: keys, lines, brands by shape, items as
the default. -/
def pDetermineField (value : Str) : PatternField :=
  if matchKeys value then PatternField.keys
  else if matchLines value then PatternField.lines
  else if matchBrands value then PatternField.brands
  else PatternField.items

/-- Field resolution of ParserPipeline.parseSingleToken: in the quoted form
the body is replaced even when the alias is unknown; in the unquoted form
the body is replaced only when the alias is known. -/
def psResolveField (tokenStr : Str) : Option PatternField × Str :=
  match fieldMatchQuoted tokenStr with
  | some (a, v) => (aliasLookup a, v)
  | none =>
    match fieldMatchUnq tokenStr with
    | some (a, v) =>
      match aliasLookup a with
      | some f => (some f, v)
      | none => (none, tokenStr)
    | none => (none, tokenStr)

/-- Tail of ParserPipeline.parseSingleToken: comparison, range, regex and
literal classification of the (possibly qualifier-stripped) body, with the
literal validation for the keys and items fields. -/
def classifyTail (f : PatternField) (kp : Option Str) (body : Str) :
    Option PData :=
  match compParse body with
  | some (op, v) => some (PData.comparison kp op (padTo4 v))
  | none =>
    match rangeSplit body with
    | some (a, b) => some (PData.range kp (padTo4 a) (padTo4 b))
    | none =>
      if isRegexPat body then some (PData.regex kp (stripQuotes body) none)
      else if f = PatternField.keys ∧ ¬matchKeys (stripQuotes body) then none
      else if f = PatternField.items ∧ ¬digits14 (stripQuotes body) then none
      else some (PData.value kp (stripQuotes body))

/-- Qualifier section and tail of ParserPipeline.parseSingleToken: extract a
bracketed qualifier (items only; numeric bodies continue normally, regex
bodies keep the whole token with an extractedValue, anything else fails),
then classify the remaining body. -/
def psTail (field : PatternField) (tokenBody tokenStr : Str) :
    Option (PatternField × PData) :=
  match keyPreSplit tokenBody with
  | some (p, extracted) =>
    if field ≠ PatternField.items then none
    else if compNum extracted || rangeNum extracted || digits14 extracted then
      (classifyTail field (some p) extracted).map (fun pd => (field, pd))
    else if regexMeta extracted then
      some (field, PData.regex none tokenStr (some extracted))
    else none
  | none => (classifyTail field none tokenBody).map (fun pd => (field, pd))

/-- Branch structure of ParserPipeline.parseSingleToken after field
resolution: a bracket-led body outside items is forced to a regex over the
whole body; an exact bracketed token under brands, lines or keys becomes a
regex over the bracket content; otherwise the qualifier section runs. -/
def psAfterField (field : PatternField) (tokenBody tokenStr : Str) :
    Option (PatternField × PData) :=
  if field ≠ PatternField.items ∧ (keyPreSplit tokenBody).isSome then
    some (field, PData.regex none tokenBody none)
  else
    match exactBracket tokenStr with
    | some inner =>
      if field = PatternField.brands ∨ field = PatternField.lines ∨
          field = PatternField.keys then
        some (field, PData.regex none inner none)
      else psTail field tokenBody tokenStr
    | none => psTail field tokenBody tokenStr

/-- ParserPipeline.parseSingleToken. -/
def parseSingleToken (tokenStr : Str) : Option (PatternField × PData) :=
  psAfterField
    ((psResolveField tokenStr).1.getD
      (pDetermineField (psResolveField tokenStr).2))
    ((psResolveField tokenStr).2) tokenStr

/-- ParserPipeline.isLikelyDynamic: reserved bracketed words are never
dynamic; exact key, line or brand shapes are; otherwise a colon or a
bracketed run anywhere makes the token dynamic. -/
def isLikelyDynamic (val : Str) : Bool :=
  if reservedBracket val then false
  else if matchKeys val || matchLines val || matchBrands val then true
  else val.contains ':' || bracketTest val

/-- Token of the cached tokenizer with its exclusion flag. -/
structure TokTag where
  tokenStr : Str
  exclude : Bool
  deriving DecidableEq, Repr

/-- Loop of ParserPipeline.tokenizeInput over the scanned parts. -/
def tokenizeInputAux : List Str → List TokTag → List Str →
    (List TokTag × List Str)
  | [], tks, descs => (tks, descs)
  | part :: rest, tks, descs =>
    let ex := stripDash part
    if reservedBracket ex.2 then tokenizeInputAux rest tks (descs ++ [part])
    else if isLikelyDynamic ex.2 then
      tokenizeInputAux rest
        (tks ++ [⟨if ex.1 then '-' :: ex.2 else ex.2, ex.1⟩]) descs
    else tokenizeInputAux rest tks (descs ++ [part])

/-- ParserPipeline.tokenizeInput: scan the parts, route reserved and
non-dynamic parts to the description, and trim and lower-case it. -/
def tokenizeInput (input : Str) : List TokTag × Str :=
  let r := tokenizeInputAux (jsTokens input) [] []
  (r.1, jsToLower (jsTrim (descJoin r.2)))

/-- Document paths used by the compiled stages: the line code, the brand
code, and the item code. -/
inductive MPath where
  | lineCode | brandCode | code
  deriving DecidableEq, Repr

/-- Input of a leaf predicate: one path, or the concatenation of paths. -/
inductive MInput where
  | path (p : MPath)
  | concatF (ps : List MPath)
  deriving DecidableEq, Repr

/-- Comparison operators of the query engine. -/
inductive MongoOp where
  | meq | mgt | mlt | mgte | mlte
  deriving DecidableEq, Repr

/-- Expression tree living under a match-expr key: case-insensitive regex
match, string comparison, and conjunction. -/
inductive MExpr where
  | regexMatch (i : MInput) (re : Str)
  | cmp (op : MongoOp) (i : MInput) (v : Str)
  | andE (es : List MExpr)
  deriving Repr

/-- Content of a match stage: an expression, a NOR of stage contents, a
nested match object (produced verbatim by the extractedValue branch of the
source), or the empty object of unreachable defaults. -/
inductive MatchBody where
  | expr (e : MExpr)
  | nor (bs : List MatchBody)
  | innerMatch (b : MatchBody)
  | emptyB
  deriving Repr

/-- One pipeline stage (always a match stage in this compiler). -/
inductive Stage where
  | mstage (b : MatchBody)
  deriving Repr

/-- Mapping of comparison operators to query-engine operators. -/
def mapOperator : CompOp → MongoOp
  | CompOp.gt => MongoOp.mgt
  | CompOp.lt => MongoOp.mlt
  | CompOp.gte => MongoOp.mgte
  | CompOp.lte => MongoOp.mlte

/-- ParserPipeline.patternDataToPattern. -/
def patternDataToPattern : PData → Pattern
  | PData.comparison kp op v => Pattern.comparison op v kp
  | PData.range kp a b => Pattern.range a b kp
  | PData.regex kp v _ => Pattern.regex v kp
  | PData.value kp v => Pattern.value v kp

/-- BuildExprWithoutPrefix, written identically in pipeline_builder.ts and
searchBuilder.ts: the input is the three-part concatenation for full item
matching, the two-part concatenation otherwise. -/
def buildExprWithoutPre (p : Pattern) (isItemFull : Bool) : MExpr :=
  let i := if isItemFull then
      MInput.concatF [MPath.lineCode, MPath.brandCode, MPath.code]
    else MInput.concatF [MPath.lineCode, MPath.brandCode]
  match p with
  | Pattern.value v _ => MExpr.cmp MongoOp.meq i v
  | Pattern.regex v _ => MExpr.regexMatch i v
  | Pattern.comparison op v _ => MExpr.cmp (mapOperator op) i v
  | Pattern.range a b _ =>
    MExpr.andE [MExpr.cmp MongoOp.mgte i a, MExpr.cmp MongoOp.mlte i b]

/-- ParserPipeline.buildSingleFieldExpr over one document path. -/
def buildSingleFieldExpr (pd : PData) (p : MPath) : MatchBody :=
  match pd with
  | PData.comparison _ op v =>
    MatchBody.expr (MExpr.cmp (mapOperator op) (MInput.path p) v)
  | PData.range _ a b =>
    MatchBody.expr (MExpr.andE
      [MExpr.cmp MongoOp.mgte (MInput.path p) a,
       MExpr.cmp MongoOp.mlte (MInput.path p) b])
  | PData.regex _ v _ => MatchBody.expr (MExpr.regexMatch (MInput.path p) v)
  | PData.value _ v =>
    MatchBody.expr (MExpr.cmp MongoOp.meq (MInput.path p) v)

/-- ParserPipeline.combinePrefixWithCode over the item code path; the
fall-through for comparison and range data is the empty object. -/
def combinePreWithCode (pre : MExpr) (pd : PData) : MatchBody :=
  match pd with
  | PData.regex _ v _ =>
    MatchBody.expr (MExpr.andE [pre, MExpr.regexMatch (MInput.path MPath.code) v])
  | PData.value _ v =>
    MatchBody.expr (MExpr.andE [pre, MExpr.cmp MongoOp.meq (MInput.path MPath.code) v])
  | _ => MatchBody.emptyB

/-- ParserPipeline.buildItemsExpr.  The extractedValue branch is checked
first and produces a nested match object over the item code alone; with a
truthy qualifier the stage is a conjunction headed by the qualifier regex
over the two-part concatenation; without one, comparisons and ranges apply
to the item code and the remaining variants to the full concatenation. -/
def buildItemsExpr (pd : PData) : MatchBody :=
  match pd with
  | PData.regex _ v (some ev) =>
    MatchBody.innerMatch
      (MatchBody.expr (MExpr.regexMatch (MInput.path MPath.code) ev))
  | _ =>
    match strTruthy pd.keyP with
    | some p =>
      let pre := MExpr.regexMatch
        (MInput.concatF [MPath.lineCode, MPath.brandCode]) p
      match pd with
      | PData.comparison _ op v =>
        MatchBody.expr (MExpr.andE
          [pre, MExpr.cmp (mapOperator op) (MInput.path MPath.code) v])
      | PData.range _ a b =>
        MatchBody.expr (MExpr.andE
          [pre, MExpr.cmp MongoOp.mgte (MInput.path MPath.code) a,
           MExpr.cmp MongoOp.mlte (MInput.path MPath.code) b])
      | PData.regex _ v _ =>
        MatchBody.expr (MExpr.andE
          [pre, MExpr.regexMatch (MInput.path MPath.code) v])
      | PData.value _ _ => combinePreWithCode pre pd
    | none =>
      match pd with
      | PData.comparison _ op v =>
        MatchBody.expr (MExpr.cmp (mapOperator op) (MInput.path MPath.code) v)
      | PData.range _ a b =>
        MatchBody.expr (MExpr.andE
          [MExpr.cmp MongoOp.mgte (MInput.path MPath.code) a,
           MExpr.cmp MongoOp.mlte (MInput.path MPath.code) b])
      | _ => MatchBody.expr (buildExprWithoutPre (patternDataToPattern pd) true)

/-- ParserPipeline.buildKeysExpr: every pattern applies to the two-part
concatenation. -/
def buildKeysExpr (pd : PData) : MatchBody :=
  MatchBody.expr (buildExprWithoutPre (patternDataToPattern pd) false)

/-- ParserPipeline.buildLineExpr. -/
def buildLineExpr (pd : PData) : MatchBody :=
  buildSingleFieldExpr pd MPath.lineCode

/-- ParserPipeline.buildBrandExpr. -/
def buildBrandExpr (pd : PData) : MatchBody :=
  buildSingleFieldExpr pd MPath.brandCode

/-- ParserPipeline.createPositiveExpr. -/
def createPositiveExpr (f : PatternField) (pd : PData) : MatchBody :=
  match f with
  | PatternField.items => buildItemsExpr pd
  | PatternField.keys => buildKeysExpr pd
  | PatternField.lines => buildLineExpr pd
  | PatternField.brands => buildBrandExpr pd

/-- ParserPipeline.buildStageFromData: the positive expression, wrapped in a
NOR for an exclusion. -/
def buildStageFromData (f : PatternField) (pd : PData) (exclude : Bool) :
    Stage :=
  if exclude then Stage.mstage (MatchBody.nor [createPositiveExpr f pd])
  else Stage.mstage (createPositiveExpr f pd)

/-- Instruction cache document (instruction.model.ts): keyed by the exact
token string, which carries a unique index. -/
structure Instr where
  token : Str
  field : PatternField
  isExc : Bool
  patternData : PData
  matchStage : Stage
  deriving Repr

/-- Compilation half of ParserPipeline.parseAndStoreToken: resolve the
exclusion marker, parse the body, build the stage; none when the token does
not parse (in which case the source creates no document). -/
def parseAndStoreHappy (rawToken : Str) (wasExclude : Bool) : Option Instr :=
  let ex := stripDash rawToken
  let exclude := wasExclude || ex.1
  match parseSingleToken ex.2 with
  | none => none
  | some (f, pd) =>
    some ⟨rawToken, f, exclude, pd, buildStageFromData f pd exclude⟩

/-- ParserPipeline.parseAndStoreToken against a store holding the set of
already persisted token keys.  The token key carries a unique index
(instruction.model.ts), so InstructionModel.create rejects a duplicate key;
the source awaits create with no handler, hence the rejection propagates,
modelled as the error outcome. -/
def parseAndStoreTokenE (store : List Str) (rawToken : Str)
    (wasExclude : Bool) : Except Unit (Option Instr × List Str) :=
  match parseAndStoreHappy rawToken wasExclude with
  | none => Except.ok (none, store)
  | some ins =>
    if store.contains rawToken then Except.error ()
    else Except.ok (some ins, rawToken :: store)

/-- Join with single spaces, as Array.prototype.join with a space. -/
def joinSpace (l : List Str) : Str := List.intercalate [' '] l

/-- Push one cached entry into the final ParsedResult, as the assembly loop
of getPipelineForInstruction does. -/
def Parsed.addEntry (pr : Parsed) (e : Instr) : Parsed :=
  let pat := patternDataToPattern e.patternData
  match e.field, e.isExc with
  | PatternField.keys, false => { pr with keys := { pr.keys with inc := pr.keys.inc ++ [pat] } }
  | PatternField.keys, true => { pr with keys := { pr.keys with exc := pr.keys.exc ++ [pat] } }
  | PatternField.items, false => { pr with items := { pr.items with inc := pr.items.inc ++ [pat] } }
  | PatternField.items, true => { pr with items := { pr.items with exc := pr.items.exc ++ [pat] } }
  | PatternField.lines, false => { pr with lines := { pr.lines with inc := pr.lines.inc ++ [pat] } }
  | PatternField.lines, true => { pr with lines := { pr.lines with exc := pr.lines.exc ++ [pat] } }
  | PatternField.brands, false => { pr with brands := { pr.brands with inc := pr.brands.inc ++ [pat] } }
  | PatternField.brands, true => { pr with brands := { pr.brands with exc := pr.brands.exc ++ [pat] } }

/-- ParserPipeline.getPipelineForInstruction with the persistence layer
abstracted to the list of documents returned by the batch read; cache writes
are taken to succeed (the single-writer happy path; the write conflict is
studied separately through parseAndStoreTokenE).  Empty or blank input
yields the empty result; otherwise each token is looked up and, on a miss,
compiled; tokens that fail to compile are appended to the description. -/
def getPipelinePure (docs : List Instr) (input : Str) : Parsed × List Stage :=
  if (jsTrim input).isEmpty then (emptyPR.finalize, [])
  else
    let tkd := tokenizeInput input
    let results := tkd.1.map (fun tk =>
      match docs.find? (fun d => d.token == tk.tokenStr) with
      | some d => some d
      | none => parseAndStoreHappy tk.tokenStr tk.exclude)
    let nonDyn := (tkd.1.zip results).filterMap
      (fun p => if p.2.isNone then some p.1.tokenStr else none)
    let entries := results.filterMap id
    let finalDesc := jsTrim (tkd.2 ++ ' ' :: joinSpace nonDyn)
    let init : Parsed := ⟨⟨[], []⟩, ⟨[], []⟩, ⟨[], []⟩, ⟨[], []⟩, finalDesc⟩
    (entries.foldl Parsed.addEntry init, entries.map (fun e => e.matchStage))

/-- KeyPrefix property of a parser Pattern object. -/
def Pattern.keyP : Pattern → Option Str
  | Pattern.value _ kp => kp
  | Pattern.regex _ kp => kp
  | Pattern.comparison _ _ kp => kp
  | Pattern.range _ _ kp => kp

/-- SearchPipelineBuilder.buildMainExpr: the leaf over the item code path. -/
def sbBuildMainExpr (p : Pattern) : Option MExpr :=
  match p with
  | Pattern.value v _ =>
    some (MExpr.cmp MongoOp.meq (MInput.path MPath.code) v)
  | Pattern.regex v _ => some (MExpr.regexMatch (MInput.path MPath.code) v)
  | Pattern.comparison op v _ =>
    some (MExpr.cmp (mapOperator op) (MInput.path MPath.code) v)
  | Pattern.range a b _ =>
    some (MExpr.andE
      [MExpr.cmp MongoOp.mgte (MInput.path MPath.code) a,
       MExpr.cmp MongoOp.mlte (MInput.path MPath.code) b])

/-- SearchPipelineBuilder.buildPrefixExpr: the case-insensitive qualifier
regex over the two-part concatenation. -/
def sbBuildPreExpr (v : Str) : Option MExpr :=
  some (MExpr.regexMatch (MInput.concatF [MPath.lineCode, MPath.brandCode]) v)

/-- SearchPipelineBuilder.buildSingleFieldExpr over one path. -/
def sbSingleFieldExpr (p : Pattern) (mp : MPath) : Option MExpr :=
  match p with
  | Pattern.value v _ => some (MExpr.cmp MongoOp.meq (MInput.path mp) v)
  | Pattern.regex v _ => some (MExpr.regexMatch (MInput.path mp) v)
  | Pattern.comparison op v _ =>
    some (MExpr.cmp (mapOperator op) (MInput.path mp) v)
  | Pattern.range a b _ =>
    some (MExpr.andE
      [MExpr.cmp MongoOp.mgte (MInput.path mp) a,
       MExpr.cmp MongoOp.mlte (MInput.path mp) b])

/-- SearchPipelineBuilder.buildItemExpr: with a truthy qualifier, the
conjunction of the qualifier regex and the main leaf over the item code;
without one, comparisons and ranges go to the item code and values and
regexes to the full three-part concatenation. -/
def sbBuildItemExpr (p : Pattern) : Option MExpr :=
  match strTruthy p.keyP with
  | some pre =>
    match sbBuildPreExpr pre, sbBuildMainExpr p with
    | some k, some m => some (MExpr.andE [k, m])
    | _, _ => none
  | none =>
    match p with
    | Pattern.comparison _ _ _ => sbBuildMainExpr p
    | Pattern.range _ _ _ => sbBuildMainExpr p
    | Pattern.value _ _ => some (buildExprWithoutPre p true)
    | Pattern.regex _ _ => some (buildExprWithoutPre p true)

/-- SearchPipelineBuilder.buildKeyExpr. -/
def sbBuildKeyExpr (p : Pattern) : Option MExpr :=
  some (buildExprWithoutPre p false)

/-- SearchPipelineBuilder.buildExpr dispatch (nothing in the delegates
throws, so the catch of the source is dead). -/
def sbBuildExpr (p : Pattern) (f : PatternField) : Option MExpr :=
  match f with
  | PatternField.items => sbBuildItemExpr p
  | PatternField.keys => sbBuildKeyExpr p
  | PatternField.lines => sbSingleFieldExpr p MPath.lineCode
  | PatternField.brands => sbSingleFieldExpr p MPath.brandCode

/-- Condition object built per field: an optional OR list of include
expressions and an optional NOR list of exclude expressions. -/
structure FieldCond where
  orCl : Option (List MExpr)
  norCl : Option (List MExpr)
  deriving Repr

/-- SearchPipelineBuilder.buildFieldCondition: none when both lists are
empty; the OR key is set when some include compiled, the NOR key when some
exclude compiled. -/
def buildFieldCondition (fp : FieldSet) (f : PatternField) :
    Option FieldCond :=
  if fp.inc.isEmpty ∧ fp.exc.isEmpty then none
  else
    let orC := fp.inc.filterMap (fun p => sbBuildExpr p f)
    let norC := fp.exc.filterMap (fun p => sbBuildExpr p f)
    some ⟨if ¬fp.inc.isEmpty ∧ ¬orC.isEmpty then some orC else none,
          if ¬fp.exc.isEmpty ∧ ¬norC.isEmpty then some norC else none⟩

/-- Document seen by the compiled stages: the line code and brand code of
the populated key, and the item code. -/
structure ItemDoc where
  lineCode : Str
  brandCode : Str
  code : Str

/-- Value of one path in a document. -/
def pathVal (d : ItemDoc) : MPath → Str
  | MPath.lineCode => d.lineCode
  | MPath.brandCode => d.brandCode
  | MPath.code => d.code

/-- Value of a leaf input: a path or the concatenation of paths. -/
def evalInput (d : ItemDoc) : MInput → Str
  | MInput.path p => pathVal d p
  | MInput.concatF ps => (ps.map (pathVal d)).flatten

/-- Lexicographic string order on code units, the order the query engine
uses for string comparison. -/
def lexLt : Str → Str → Bool
  | [], [] => false
  | [], _ :: _ => true
  | _ :: _, [] => false
  | a :: as, b :: bs =>
    if a.val < b.val then true
    else if b.val < a.val then false
    else lexLt as bs

/-- Evaluation of a comparison operator. -/
def opEval (op : MongoOp) (a b : Str) : Bool :=
  match op with
  | MongoOp.meq => a == b
  | MongoOp.mgt => lexLt b a
  | MongoOp.mlt => lexLt a b
  | MongoOp.mgte => !lexLt a b
  | MongoOp.mlte => !lexLt b a

/-- Evaluation of an expression tree on a document.  Regex matching is an
oracle parameter rm, taking the input string and the pattern. -/
def evalExpr (rm : Str → Str → Bool) (d : ItemDoc) : MExpr → Bool
  | MExpr.regexMatch i re => rm (evalInput d i) re
  | MExpr.cmp op i v => opEval op (evalInput d i) v
  | MExpr.andE es => es.attach.all (fun x => evalExpr rm d x.1)
  decreasing_by
  have := List.sizeOf_lt_of_mem x.2
  simp at this ⊢
  omega

/-- Evaluation of a match-stage body: a NOR holds when no member matches. -/
def evalBody (rm : Str → Str → Bool) (d : ItemDoc) : MatchBody → Bool
  | MatchBody.expr e => evalExpr rm d e
  | MatchBody.nor bs => !(bs.attach.any (fun x => evalBody rm d x.1))
  | MatchBody.innerMatch b => evalBody rm d b
  | MatchBody.emptyB => true
  decreasing_by
  · have := List.sizeOf_lt_of_mem x.2
    simp at this ⊢
    omega
  · simp

/-- Evaluation of a per-field condition object: the implicit conjunction of
its OR key (some include matches) and its NOR key (no exclude matches). -/
def evalFieldCond (rm : Str → Str → Bool) (d : ItemDoc) (fc : FieldCond) :
    Bool :=
  (match fc.orCl with
   | none => true
   | some l => l.any (evalExpr rm d)) &&
  (match fc.norCl with
   | none => true
   | some l => !(l.any (evalExpr rm d)))

/-- Input referring to the item code alone. -/
def inputOnlyCode : MInput → Bool
  | MInput.path MPath.code => true
  | _ => false

/-- Expression whose every leaf reads the item code alone. -/
def usesOnlyCode : MExpr → Bool
  | MExpr.regexMatch i _ => inputOnlyCode i
  | MExpr.cmp _ i _ => inputOnlyCode i
  | MExpr.andE es => es.attach.all (fun x => usesOnlyCode x.1)
  decreasing_by
  have := List.sizeOf_lt_of_mem x.2
  simp at this ⊢
  omega

/-- Expression whose every leaf reads the full three-part concatenation. -/
def onFullConcat : MExpr → Bool
  | MExpr.regexMatch i _ =>
    i == MInput.concatF [MPath.lineCode, MPath.brandCode, MPath.code]
  | MExpr.cmp _ i _ =>
    i == MInput.concatF [MPath.lineCode, MPath.brandCode, MPath.code]
  | MExpr.andE es => es.attach.all (fun x => onFullConcat x.1)
  decreasing_by
  have := List.sizeOf_lt_of_mem x.2
  simp at this ⊢
  omega

/-- Stage body whose every leaf reads the item code alone. -/
def bodyOnlyCode : MatchBody → Bool
  | MatchBody.expr e => usesOnlyCode e
  | MatchBody.nor bs => bs.attach.all (fun x => bodyOnlyCode x.1)
  | MatchBody.innerMatch b => bodyOnlyCode b
  | MatchBody.emptyB => true
  decreasing_by
  · have := List.sizeOf_lt_of_mem x.2
    simp at this ⊢
    omega
  · simp

/-- Stage body whose every leaf reads the full three-part concatenation. -/
def bodyFullConcat : MatchBody → Bool
  | MatchBody.expr e => onFullConcat e
  | MatchBody.nor bs => bs.attach.all (fun x => bodyFullConcat x.1)
  | MatchBody.innerMatch b => bodyFullConcat b
  | MatchBody.emptyB => true
  decreasing_by
  · have := List.sizeOf_lt_of_mem x.2
    simp at this ⊢
    omega
  · simp

/-- Source text of a comparison operator. -/
def opStr : CompOp → Str
  | CompOp.gt => ['>']
  | CompOp.lt => ['<']
  | CompOp.gte => ['>', '=']
  | CompOp.lte => ['<', '=']

theorem compParse_split (op : CompOp) (v : Str) (hv : v ≠ [])
    (hlt : noLT v = true)
    (hne : (op = CompOp.gt ∨ op = CompOp.lt) → v.head? ≠ some '=') :
    compParse (opStr op ++ v) = some (op, v) := by
  cases op
  case gt =>
    cases v with
    | nil => exact absurd rfl hv
    | cons a tail =>
      have ha : (a == '=') = false := by
        have := hne (Or.inl rfl)
        simp at this
        simp [this]
      simp [compParse, opStr, opOf, ha, hlt]
  case lt =>
    cases v with
    | nil => exact absurd rfl hv
    | cons a tail =>
      have ha : (a == '=') = false := by
        have := hne (Or.inr rfl)
        simp at this
        simp [this]
      simp [compParse, opStr, opOf, ha, hlt]
  case gte =>
    have hv2 : v.isEmpty = false := by simp [List.isEmpty_iff, hv]
    simp [compParse, opStr, opOf, hv2, hlt]
  case lte =>
    have hv2 : v.isEmpty = false := by simp [List.isEmpty_iff, hv]
    simp [compParse, opStr, opOf, hv2, hlt]

theorem lastSepSplit_cons (c : Char) (rest : Str) :
    lastSepSplit (c :: rest) =
      match lastSepSplit rest with
      | some (a, b) => some (c :: a, b)
      | none =>
        match rest with
        | r :: b =>
          if c == '<' && r == '>' && !b.isEmpty then some ([], b) else none
        | [] => none := rfl

theorem lastSepSplit_none (l : Str) (h : ¬ ['<', '>'] <:+: l) :
    lastSepSplit l = none := by
  induction l with
  | nil => rfl
  | cons c rest ih =>
    have hr : ¬ ['<', '>'] <:+: rest := by
      intro hi
      exact h (hi.trans (List.suffix_cons c rest).isInfix)
    rw [lastSepSplit_cons, ih hr]
    cases rest with
    | nil => rfl
    | cons r b =>
      have : (c == '<' && r == '>' && !b.isEmpty) = false := by
        by_cases hc : c = '<'
        · by_cases hrq : r = '>'
          · exact absurd ⟨[], b, by simp [hc, hrq]⟩ h
          · simp [hrq]
        · simp [hc]
      simp [this]

theorem lastSepSplit_append (a b : Str) (hb : b ≠ [])
    (hbi : ¬ ['<', '>'] <:+: b) :
    lastSepSplit (a ++ '<' :: '>' :: b) = some (a, b) := by
  induction a with
  | nil =>
    have h1 : lastSepSplit ('>' :: b) = none := by
      apply lastSepSplit_none
      intro hi
      rcases (List.infix_cons_iff).mp hi with hp | hi2
      · rcases hp with ⟨t, ht⟩
        simp at ht
      · exact hbi hi2
    have hb2 : b.isEmpty = false := by simp [List.isEmpty_iff, hb]
    rw [List.nil_append, lastSepSplit_cons, h1]
    simp [hb2]
  | cons c a' ih =>
    rw [List.cons_append, lastSepSplit_cons, ih]

/-- C2: for every comparison token (operator then value) and range token
(two bounds around the literal separator), a value or bound shorter than 4
characters is left-padded with 0 to exactly 4 characters and one of 4 or
more characters is unchanged; in particular the token with operator greater
and value 50 yields the comparison value 0050, and the range from 1 to 20
yields bounds 0001 and 0020, in the parser and in the cached pipeline. -/
theorem C2_comparison_range_padding :
    (∀ v : Str, v.length < 4 →
      (padTo4 v).length = 4 ∧
      padTo4 v = List.replicate (4 - v.length) '0' ++ v) ∧
    (∀ v : Str, 4 ≤ v.length → padTo4 v = v) ∧
    (∀ (op : CompOp) (v : Str), v ≠ [] → noLT v = true →
      ((op = CompOp.gt ∨ op = CompOp.lt) → v.head? ≠ some '=') →
      parseComparison (opStr op ++ v) = some (op, padTo4 v)) ∧
    (∀ a b : Str, a ≠ [] → b ≠ [] → noLT a = true → noLT b = true →
      ¬ ['<', '>'] <:+: b →
      parseRange (a ++ '<' :: '>' :: b) = some (padTo4 a, padTo4 b)) ∧
    extractPatterns (str (">50")) =
      [Pattern.comparison CompOp.gt (str ("0050")) none] ∧
    extractPatterns (str ("1<>20")) =
      [Pattern.range (str ("0001")) (str ("0020")) none] ∧
    parseSingleToken (str (">50")) =
      some (PatternField.items, PData.comparison none CompOp.gt (str ("0050"))) ∧
    parseSingleToken (str ("1<>20")) =
      some (PatternField.items, PData.range none (str ("0001")) (str ("0020"))) := by
  refine ⟨?_, ?_, ?_, ?_, by decide, by decide, by decide, by decide⟩
  · intro v h
    constructor
    · simp [padTo4, h]
      omega
    · simp [padTo4, h]
  · intro v h
    simp [padTo4]
    omega
  · intro op v hv hlt hne
    simp [parseComparison, compParse_split op v hv hlt hne]
  · intro a b ha hb hna hnb hbi
    have hno : noLT (a ++ '<' :: '>' :: b) = true := by
      simp only [noLT, List.all_append, List.all_cons] at hna hnb ⊢
      simp [hna, hnb]
      decide
    have ha2 : a.isEmpty = false := by simp [List.isEmpty_iff, ha]
    simp only [parseRange, rangeSplit, hno, Bool.not_true,
      lastSepSplit_append a b hb hbi, ha2]
    simp

/-- Witness for C2 at the concrete operator greater with value 50 and the
concrete range from 1 to 20. -/
theorem C2_comparison_range_padding_witness :
    parseComparison (opStr CompOp.gt ++ str ("50")) =
      some (CompOp.gt, padTo4 (str ("50"))) ∧
    parseRange (str ("1") ++ '<' :: '>' :: str ("20")) =
      some (padTo4 (str ("1")), padTo4 (str ("20"))) :=
  ⟨C2_comparison_range_padding.2.2.1 CompOp.gt (str ("50")) (by decide)
      (by decide) (by decide),
   C2_comparison_range_padding.2.2.2.1 (str ("1")) (str ("20")) (by decide)
      (by decide) (by decide) (by decide) (by decide)⟩

/-- C7: a bare token of exactly 3 uppercase alphanumerics resolves to lines
(the lines shape is tested before the brands shape), one of exactly 2 to
brands, and one of 5 or 6 to keys, in both field resolvers. -/
theorem C7_shape_resolution :
    ∀ s : Str, s.all isUpperAlnum = true →
      (s.length = 3 →
        (∀ ps, determineField s ps = some PatternField.lines) ∧
        pDetermineField s = PatternField.lines) ∧
      (s.length = 2 →
        (∀ ps, determineField s ps = some PatternField.brands) ∧
        pDetermineField s = PatternField.brands) ∧
      (s.length = 5 ∨ s.length = 6 →
        (∀ ps, determineField s ps = some PatternField.keys) ∧
        pDetermineField s = PatternField.keys) := by
  intro s hall
  refine ⟨fun h3 => ?_, fun h2 => ?_, fun h56 => ?_⟩
  · constructor
    · intro ps
      simp [determineField, matchKeys, matchItems, matchLines, matchBrands,
        h3, hall]
    · simp [pDetermineField, matchKeys, matchItems, matchLines, matchBrands,
        h3, hall]
  · constructor
    · intro ps
      simp [determineField, matchKeys, matchItems, matchLines, matchBrands,
        h2, hall]
    · simp [pDetermineField, matchKeys, matchItems, matchLines, matchBrands,
        h2, hall]
  · rcases h56 with h5 | h6
    · constructor
      · intro ps
        simp [determineField, matchKeys, matchItems, matchLines, matchBrands,
          h5, hall]
      · simp [pDetermineField, matchKeys, matchItems, matchLines, matchBrands,
          h5, hall]
    · constructor
      · intro ps
        simp [determineField, matchKeys, matchItems, matchLines, matchBrands,
          h6, hall]
      · simp [pDetermineField, matchKeys, matchItems, matchLines, matchBrands,
          h6, hall]

/-- Witness for C7 at the concrete tokens ABC, AB and ABCDE. -/
theorem C7_shape_resolution_witness :
    determineField (str ("ABC")) [] = some PatternField.lines ∧
    pDetermineField (str ("AB")) = PatternField.brands ∧
    determineField (str ("ABCDE")) [] = some PatternField.keys :=
  ⟨((C7_shape_resolution (str ("ABC")) (by decide)).1 (by decide)).1 [],
   ((C7_shape_resolution (str ("AB")) (by decide)).2.1 (by decide)).2,
   ((C7_shape_resolution (str ("ABCDE")) (by decide)).2.2 (Or.inl (by decide))).1 []⟩

/-- C1 (divergence witness): parseAndStoreToken awaits the cache insert with
no handler, and the token key carries a unique index, so when the exact
token string is already persisted (the concurrent-duplicate situation of the
claim) the rejection propagates instead of the call returning the compiled
Instruction: the token ABC compiles, yet against a store already holding ABC
the call ends in the error outcome rather than a success carrying the
instruction. -/
theorem C1_duplicate_insert_propagates :
    (parseAndStoreHappy (str ("ABC")) false).isSome = true ∧
    parseAndStoreTokenE [str ("ABC")] (str ("ABC")) false =
      Except.error () := by
  constructor
  · decide
  · rfl

/-- Comparison-or-range test on parser patterns. -/
def isCompOrRange : Pattern → Bool
  | Pattern.comparison _ _ _ => true
  | Pattern.range _ _ _ => true
  | _ => false

/-- Comparison-or-range test on pattern data. -/
def pdCompOrRange : PData → Bool
  | PData.comparison _ _ _ => true
  | PData.range _ _ _ => true
  | _ => false

/-- Presence of an extractedValue property on pattern data. -/
def hasEV : PData → Bool
  | PData.regex _ _ (some _) => true
  | _ => false

/-- PatternData of the bracket-qualified regex token, as parseSingleToken
produces it: the regex variant with no keyPrefix and an extractedValue. -/
def pdEV : PData :=
  PData.regex none (str ("[GRAPVH]AB*")) (some (str ("AB*")))

/-- C3 counterexample: pdEV is produced under the items field for the
bracket-qualified regex token, carries no keyPrefix, and its compiled stage
reads the item code alone rather than the full three-part concatenation,
refuting the claim for a regex pattern with no keyPrefix present. -/
theorem C3_counterexample :
    parseSingleToken (str ("[GRAPVH]AB*")) =
      some (PatternField.items, pdEV) ∧
    pdEV.keyP = none ∧
    buildItemsExpr pdEV =
      MatchBody.innerMatch (MatchBody.expr
        (MExpr.regexMatch (MInput.path MPath.code) (str ("AB*")))) ∧
    bodyOnlyCode (buildItemsExpr pdEV) = true ∧
    bodyFullConcat (buildItemsExpr pdEV) = false := by
  refine ⟨by decide, rfl, rfl, ?_, ?_⟩ <;>
    simp [bodyOnlyCode, usesOnlyCode, bodyFullConcat, onFullConcat,
      inputOnlyCode, buildItemsExpr, pdEV]

theorem all_map2 {α β : Type} (l : List α) (f : α → β) (p : β → Bool) :
    (l.map f).all p = l.all (fun x => p (f x)) := by
  induction l with
  | nil => rfl
  | cons a t ih => simp [List.all_cons, ih]

theorem any_map2 {α β : Type} (l : List α) (f : α → β) (p : β → Bool) :
    (l.map f).any p = l.any (fun x => p (f x)) := by
  induction l with
  | nil => rfl
  | cons a t ih => simp [List.any_cons, ih]

theorem all_attach {α : Type} (l : List α) (p : α → Bool) :
    (l.attach.all fun x => p x.1) = l.all p := by
  induction l with
  | nil => rfl
  | cons a t ih =>
    rw [List.attach_cons]
    simp only [List.all_cons, all_map2]
    rw [← ih]

theorem any_attach {α : Type} (l : List α) (p : α → Bool) :
    (l.attach.any fun x => p x.1) = l.any p := by
  induction l with
  | nil => rfl
  | cons a t ih =>
    rw [List.attach_cons]
    simp only [List.any_cons, any_map2]
    rw [← ih]

@[simp] theorem usesOnlyCode_andE (es : List MExpr) :
    usesOnlyCode (MExpr.andE es) = es.all usesOnlyCode := by
  simp only [usesOnlyCode]
  rw [all_attach]

@[simp] theorem onFullConcat_andE (es : List MExpr) :
    onFullConcat (MExpr.andE es) = es.all onFullConcat := by
  simp only [onFullConcat]
  rw [all_attach]

@[simp] theorem evalExpr_andE (rm : Str → Str → Bool) (d : ItemDoc)
    (es : List MExpr) :
    evalExpr rm d (MExpr.andE es) = es.all (evalExpr rm d) := by
  simp only [evalExpr]
  rw [all_attach]

@[simp] theorem evalBody_nor (rm : Str → Str → Bool) (d : ItemDoc)
    (bs : List MatchBody) :
    evalBody rm d (MatchBody.nor bs) = !(bs.any (evalBody rm d)) := by
  simp only [evalBody]
  rw [any_attach]

/-- C3 (amended): for every pattern compiled under items, a truthy keyPrefix
yields a conjunction of the case-insensitive prefix regex over the two-part
concatenation with leaf predicates over the item code alone (equality for a
value pattern); with no keyPrefix, comparisons and ranges compile over the
item code alone and values and regexes over the full three-part
concatenation — except, in the cached path, patternData carrying an
extractedValue, which compiles to a regex over the item code alone with the
bracketed prefix dropped. -/
theorem C3_items_scoping_amended :
    (∀ (p : Pattern) (pre : Str), strTruthy p.keyP = some pre →
      ∃ m, sbBuildItemExpr p = some (MExpr.andE
          [MExpr.regexMatch (MInput.concatF [MPath.lineCode, MPath.brandCode])
            pre, m]) ∧
        sbBuildMainExpr p = some m ∧ usesOnlyCode m = true ∧
        (∀ v kp, p = Pattern.value v kp →
          m = MExpr.cmp MongoOp.meq (MInput.path MPath.code) v)) ∧
    (∀ p : Pattern, strTruthy p.keyP = none →
      (isCompOrRange p = true →
        ∃ m, sbBuildItemExpr p = some m ∧ usesOnlyCode m = true) ∧
      (isCompOrRange p = false →
        ∃ m, sbBuildItemExpr p = some m ∧ onFullConcat m = true)) ∧
    (∀ pd : PData, hasEV pd = false →
      (∀ pre, strTruthy pd.keyP = some pre →
        ∃ rest, buildItemsExpr pd = MatchBody.expr (MExpr.andE
            (MExpr.regexMatch
              (MInput.concatF [MPath.lineCode, MPath.brandCode]) pre :: rest)) ∧
          rest ≠ [] ∧ rest.all usesOnlyCode = true ∧
          (∀ v kp, pd = PData.value kp v →
            rest = [MExpr.cmp MongoOp.meq (MInput.path MPath.code) v])) ∧
      (strTruthy pd.keyP = none →
        (pdCompOrRange pd = true →
          bodyOnlyCode (buildItemsExpr pd) = true) ∧
        (pdCompOrRange pd = false →
          bodyFullConcat (buildItemsExpr pd) = true))) ∧
    (∀ kp v ev, buildItemsExpr (PData.regex kp v (some ev)) =
      MatchBody.innerMatch (MatchBody.expr
        (MExpr.regexMatch (MInput.path MPath.code) ev))) := by
  refine ⟨?_, ?_, ?_, ?_⟩
  · intro p pre hpre
    cases p <;>
      simp [Pattern.keyP] at hpre <;>
      refine ⟨_, ?_, rfl, ?_, ?_⟩ <;>
      simp [sbBuildItemExpr, sbBuildPreExpr, sbBuildMainExpr, hpre,
        Pattern.keyP, usesOnlyCode, inputOnlyCode]
  · intro p hpre
    cases p
    case value v kp =>
      simp only [Pattern.keyP] at hpre
      constructor
      · intro hk
        simp [isCompOrRange] at hk
      · intro hk
        exact ⟨MExpr.cmp MongoOp.meq
            (MInput.concatF [MPath.lineCode, MPath.brandCode, MPath.code]) v,
          by simp [sbBuildItemExpr, Pattern.keyP, hpre, buildExprWithoutPre],
          by simp [onFullConcat]⟩
    case regex v kp =>
      simp only [Pattern.keyP] at hpre
      constructor
      · intro hk
        simp [isCompOrRange] at hk
      · intro hk
        exact ⟨MExpr.regexMatch
            (MInput.concatF [MPath.lineCode, MPath.brandCode, MPath.code]) v,
          by simp [sbBuildItemExpr, Pattern.keyP, hpre, buildExprWithoutPre],
          by simp [onFullConcat]⟩
    case comparison op v kp =>
      simp only [Pattern.keyP] at hpre
      constructor
      · intro hk
        exact ⟨MExpr.cmp (mapOperator op) (MInput.path MPath.code) v,
          by simp [sbBuildItemExpr, sbBuildMainExpr, Pattern.keyP, hpre],
          by simp [usesOnlyCode, inputOnlyCode]⟩
      · intro hk
        simp [isCompOrRange] at hk
    case range a b kp =>
      simp only [Pattern.keyP] at hpre
      constructor
      · intro hk
        exact ⟨MExpr.andE
            [MExpr.cmp MongoOp.mgte (MInput.path MPath.code) a,
             MExpr.cmp MongoOp.mlte (MInput.path MPath.code) b],
          by simp [sbBuildItemExpr, sbBuildMainExpr, Pattern.keyP, hpre],
          by simp [usesOnlyCode, inputOnlyCode]⟩
      · intro hk
        simp [isCompOrRange] at hk
  · intro pd hev
    constructor
    · intro pre hpre
      cases pd <;> simp [PData.keyP] at hpre <;> simp [hasEV] at hev
      case comparison kp op v =>
        exact ⟨[MExpr.cmp (mapOperator op) (MInput.path MPath.code) v],
          by simp [buildItemsExpr, PData.keyP, hpre], by simp,
          by simp [usesOnlyCode, inputOnlyCode], by simp⟩
      case range kp a b =>
        exact ⟨[MExpr.cmp MongoOp.mgte (MInput.path MPath.code) a,
            MExpr.cmp MongoOp.mlte (MInput.path MPath.code) b],
          by simp [buildItemsExpr, PData.keyP, hpre], by simp,
          by simp [usesOnlyCode, inputOnlyCode], by simp⟩
      case regex kp v ev =>
        cases ev with
        | none =>
          exact ⟨[MExpr.regexMatch (MInput.path MPath.code) v],
            by simp [buildItemsExpr, PData.keyP, hpre], by simp,
            by simp [usesOnlyCode, inputOnlyCode], by simp⟩
        | some e => simp at hev
      case value kp v =>
        exact ⟨[MExpr.cmp MongoOp.meq (MInput.path MPath.code) v],
          by simp [buildItemsExpr, combinePreWithCode, PData.keyP, hpre],
          by simp, by simp [usesOnlyCode, inputOnlyCode], by simp⟩
    · intro hpre
      constructor <;> intro hk <;>
        cases pd <;> simp [pdCompOrRange] at hk <;>
        simp [hasEV] at hev <;> simp [PData.keyP] at hpre
      case comparison kp op v =>
        simp [buildItemsExpr, PData.keyP, hpre, bodyOnlyCode, usesOnlyCode,
          inputOnlyCode]
      case range kp a b =>
        simp [buildItemsExpr, PData.keyP, hpre, bodyOnlyCode, usesOnlyCode,
          inputOnlyCode]
      case regex kp v ev =>
        cases ev with
        | none =>
          simp [buildItemsExpr, PData.keyP, hpre, bodyFullConcat, onFullConcat,
            buildExprWithoutPre, patternDataToPattern]
        | some e => simp at hev
      case value kp v =>
        simp [buildItemsExpr, PData.keyP, hpre, bodyFullConcat, onFullConcat,
          buildExprWithoutPre, patternDataToPattern]
  · intro kp v ev
    rfl

/-- Witness for C3 at the concrete qualified comparison pattern. -/
theorem C3_items_scoping_amended_witness :
    ∃ m, sbBuildItemExpr
        (Pattern.comparison CompOp.gt (str ("0050")) (some (str ("GRAPVH")))) =
        some (MExpr.andE
          [MExpr.regexMatch (MInput.concatF [MPath.lineCode, MPath.brandCode])
            (str ("GRAPVH")), m]) ∧
      sbBuildMainExpr
        (Pattern.comparison CompOp.gt (str ("0050")) (some (str ("GRAPVH")))) =
        some m ∧
      usesOnlyCode m = true ∧
      (∀ v kp,
        Pattern.comparison CompOp.gt (str ("0050")) (some (str ("GRAPVH"))) =
          Pattern.value v kp →
        m = MExpr.cmp MongoOp.meq (MInput.path MPath.code) v) :=
  C3_items_scoping_amended.1 _ (str ("GRAPVH")) (by decide)

/-- C4: for every field with a nonempty exclude list the compiled condition
wraps the compiled exclude expressions in a NOR, and a document passes only
when it matches none of them; the pipeline likewise wraps an exclusion stage
in a NOR of the positive expression; the instruction excluding the item 0050
yields exactly one items exclude entry, whose compiled condition rejects a
document matching 0050 and passes one matching nothing excluded. -/
theorem C4_exclude_nor :
    (∀ (fp : FieldSet) (f : PatternField), fp.exc ≠ [] →
      ∃ fc, buildFieldCondition fp f = some fc ∧
        fc.norCl =
          (if (fp.exc.filterMap (fun p => sbBuildExpr p f)).isEmpty then none
           else some (fp.exc.filterMap (fun p => sbBuildExpr p f))) ∧
        (∀ rm d, evalFieldCond rm d fc = true →
          ∀ e ∈ fp.exc.filterMap (fun p => sbBuildExpr p f),
            evalExpr rm d e = false)) ∧
    (∀ f pd, buildStageFromData f pd true =
        Stage.mstage (MatchBody.nor [createPositiveExpr f pd]) ∧
      ∀ rm d, evalBody rm d (MatchBody.nor [createPositiveExpr f pd]) =
        !(evalBody rm d (createPositiveExpr f pd))) ∧
    (instructionParserResult (str ("-items:0050"))).items.exc =
      [Pattern.value (str ("0050")) none] ∧
    (instructionParserResult (str ("-items:0050"))).items.inc = [] ∧
    (∀ rm d, ∃ fc,
      buildFieldCondition ⟨[], [Pattern.value (str ("0050")) none]⟩
        PatternField.items = some fc ∧
      (evalFieldCond rm d fc = true ↔
        evalExpr rm d (MExpr.cmp MongoOp.meq
          (MInput.concatF [MPath.lineCode, MPath.brandCode, MPath.code])
          (str ("0050"))) = false)) := by
  refine ⟨?_, ?_, by decide, by decide, ?_⟩
  · intro fp f hexc
    have h2 : fp.exc.isEmpty = false := by simp [List.isEmpty_iff, hexc]
    have h1 : ¬(fp.inc.isEmpty = true ∧ fp.exc.isEmpty = true) := by simp [h2]
    by_cases h3 : (fp.exc.filterMap (fun p => sbBuildExpr p f)).isEmpty = true
    · refine ⟨_, by rw [buildFieldCondition, if_neg h1], by simp [h2, h3], ?_⟩
      intro rm d hev e he
      rw [List.isEmpty_iff.mp h3] at he
      simp at he
    · refine ⟨_, by rw [buildFieldCondition, if_neg h1], by simp [h2, h3], ?_⟩
      intro rm d hev e he
      simp only [evalFieldCond, h2, h3, Bool.false_eq_true, not_false_iff,
        and_true, true_and, if_true, if_pos, Bool.and_eq_true] at hev
      rcases hev with ⟨-, hnor⟩
      simp only [Bool.not_eq_true', List.any_eq_false] at hnor
      exact Bool.eq_false_iff.mpr (hnor e he)
  · intro f pd
    refine ⟨rfl, ?_⟩
    intro rm d
    simp
  · intro rm d
    refine ⟨⟨none, some [MExpr.cmp MongoOp.meq
        (MInput.concatF [MPath.lineCode, MPath.brandCode, MPath.code])
        (str ("0050"))]⟩, rfl, ?_⟩
    simp [evalFieldCond]

/-- Witness for C4 at the concrete excluded value 0050 under items. -/
theorem C4_exclude_nor_witness :
    ∃ fc, buildFieldCondition ⟨[], [Pattern.value (str ("0050")) none]⟩
        PatternField.items = some fc ∧
      fc.norCl =
        (if (([Pattern.value (str ("0050")) none].filterMap
            (fun p => sbBuildExpr p PatternField.items)).isEmpty) then none
         else some ([Pattern.value (str ("0050")) none].filterMap
            (fun p => sbBuildExpr p PatternField.items))) ∧
      (∀ rm d, evalFieldCond rm d fc = true →
        ∀ e ∈ [Pattern.value (str ("0050")) none].filterMap
            (fun p => sbBuildExpr p PatternField.items),
          evalExpr rm d e = false) :=
  C4_exclude_nor.1 ⟨[], [Pattern.value (str ("0050")) none]⟩
    PatternField.items (by decide)

theorem jsTrim_eq_self (l : Str)
    (h1 : ∀ c, l.head? = some c → isJsSpace c = false)
    (h2 : ∀ c, l.getLast? = some c → isJsSpace c = false) : jsTrim l = l := by
  unfold jsTrim
  have e1 : l.dropWhile isJsSpace = l := by
    cases l with
    | nil => rfl
    | cons c rest =>
      rw [List.dropWhile_cons_of_neg]
      simp [h1 c rfl]
  rw [e1]
  have e2 : l.reverse.dropWhile isJsSpace = l.reverse := by
    cases hr : l.reverse with
    | nil => rfl
    | cons c rest =>
      rw [List.dropWhile_cons_of_neg]
      have hc : l.getLast? = some c := by
        rw [← List.head?_reverse, hr]
        rfl
      simp [h2 c hc]
  rw [e2, List.reverse_reverse]

theorem stripEdge_id (q : Char) (l : Str) (h1 : l.head? ≠ some q)
    (h2 : l.getLast? ≠ some q) : stripEdge q l = l := by
  cases l with
  | nil => rfl
  | cons c rest =>
    have hcq : (c == q) = false := by
      simp
      intro h
      exact h1 (by simp [h])
    unfold stripEdge
    simp only [hcq, Bool.false_eq_true, if_false]
    cases hr : (c :: rest).reverse with
    | nil => simp at hr
    | cons d rest2 =>
      have hdl : (c :: rest).getLast? = some d := by
        rw [← List.head?_reverse, hr]
        rfl
      have hdq : (d == q) = false := by
        simp
        intro h
        exact h2 (by rw [← h]; exact hdl)
      simp [hdq]

theorem stripEdge_wrap (q : Char) (xs : Str) :
    stripEdge q (q :: xs ++ [q]) = xs := by
  unfold stripEdge
  simp [List.reverse_append]

theorem isCompPat_head_false (c : Char) (xs : Str)
    (h : (c == '>' || c == '<') = false) : isCompPat (c :: xs) = false := by
  cases xs with
  | nil => rfl
  | cons r rest => simp [isCompPat, h]

theorem shapes_false_of_head (c : Char) (xs : Str)
    (h : isUpperAlnum c = false) :
    matchKeys (c :: xs) = false ∧ matchItems (c :: xs) = false ∧
    matchLines (c :: xs) = false ∧ matchBrands (c :: xs) = false := by
  refine ⟨?_, ?_, ?_, ?_⟩ <;>
    simp [matchKeys, matchItems, matchLines, matchBrands, h,
      List.take_succ_cons]

theorem pair_infix_wrap (a b c d : Char) (s : Str)
    (hinf : [a, b] <:+: c :: s ++ [d]) (hc : c ≠ a) (hd : d ≠ b) :
    [a, b] <:+: s := by
  rcases hinf with ⟨u, v, hu⟩
  cases u with
  | nil =>
    simp at hu
    exact absurd hu.1.symm hc
  | cons c0 u' =>
    simp only [List.cons_append, List.append_assoc, List.cons.injEq] at hu
    rcases List.eq_nil_or_concat v with rfl | ⟨v', e, rfl⟩
    · exfalso
      have hlast := congrArg List.getLast? hu.2
      simp [List.getLast?_append] at hlast
      exact hd hlast.symm
    · have h3 : (u' ++ ([a, b] ++ v')) ++ [e] = s ++ [d] := by
        have := hu.2
        rw [List.concat_eq_append] at this
        rw [← this]
        simp
      have h4 := List.append_inj' h3 (by rfl)
      exact ⟨u', v', by rw [← h4.1]; simp⟩

theorem quotedWrap_wrap (q : Char) (s : Str) (hs : s ≠ [])
    (hlt : noLT s = true) : quotedWrap q (q :: s ++ [q]) = true := by
  unfold quotedWrap
  simp [List.reverse_append, List.isEmpty_iff, hs, List.reverse_reverse, hlt]

theorem isRegexPat_quoted (s : Str) (hs : s ≠ []) (hlt : noLT s = true) :
    isRegexPat ('"' :: s ++ ['"']) = true := by
  unfold isRegexPat
  rw [quotedWrap_wrap '"' s hs hlt]
  simp

/-- C5 counterexample: the instruction consisting solely of the quoted
phrase hello world is not routed to the description by InstructionParser:
the fully quoted token is classified as a regex pattern, defaulted to the
items field, and the description stays empty, contradicting the claimed
empty ParsedResult with a nonempty lower-cased description. -/
theorem C5_counterexample :
    (instructionParserResult (str ("\"hello world\""))).items.inc =
      [Pattern.regex (str ("hello world")) none] ∧
    (instructionParserResult (str ("\"hello world\""))).desc = [] := by
  constructor <;> decide

/-- C5 (amended): an instruction that is exactly a double-quoted nonempty
phrase with no field-alias marker, no range separator, no line terminator,
and no additional edge quotes is classified by InstructionParser as one
regex pattern over items whose value is the phrase without its outer
quotes, with every other list and the description empty; the cached
pipeline instead routes the quoted words to the description, lower-cased
and with the quote characters preserved. -/
theorem C5_quoted_phrase_amended :
    (∀ s : Str, s ≠ [] →
      hasWordColon ('"' :: s ++ ['"']) = false →
      noLT s = true →
      ¬ ['<', '>'] <:+: s →
      s.head? ≠ some '\'' → s.getLast? ≠ some '\'' →
      instructionParserResult ('"' :: s ++ ['"']) =
        ⟨⟨[], []⟩, ⟨[Pattern.regex s none], []⟩, ⟨[], []⟩, ⟨[], []⟩, []⟩) ∧
    (getPipelinePure [] (str ("\"hello world\""))).1 =
      ⟨⟨[], []⟩, ⟨[], []⟩, ⟨[], []⟩, ⟨[], []⟩, str ("\"hello world\"")⟩ ∧
    (getPipelinePure [] (str ("\"hello world\""))).2 = [] := by
  refine ⟨?_, by decide, rfl⟩
  intro s hs hcolon hlt hsep hq1 hq2
  have hgl : ('"' :: s ++ ['"'] : Str).getLast? = some '"' := by
    rw [List.getLast?_concat]
  have htrim : jsTrim ('"' :: s ++ ['"']) = '"' :: s ++ ['"'] := by
    apply jsTrim_eq_self
    · intro c hc
      simp at hc
      rw [← hc]
      decide
    · intro c hc
      rw [hgl] at hc
      injection hc with hc
      rw [← hc]
      decide
  have hnoLT : noLT ('"' :: s ++ ['"']) = true := by
    simp only [noLT] at hlt ⊢
    simp [List.all_append, hlt]
    decide
  have hni : ¬ ['<', '>'] <:+: ('"' :: s ++ ['"']) := by
    intro hi
    exact hsep (pair_infix_wrap '<' '>' '"' '"' s hi (by decide) (by decide))
  have hrange : rangeSplit ('"' :: s ++ ['"']) = none := by
    rw [rangeSplit, hnoLT, lastSepSplit_none _ hni]
    simp
  have hcomp : isCompPat ('"' :: s ++ ['"']) = false :=
    isCompPat_head_false '"' (s ++ ['"']) (by decide)
  have hregex : isRegexPat ('"' :: s ++ ['"']) = true :=
    isRegexPat_quoted s hs hlt
  have hstrip : stripQuotes ('"' :: s ++ ['"']) = s := by
    unfold stripQuotes
    rw [stripEdge_wrap]
    exact stripEdge_id '\'' s hq1 hq2
  have hkps : keyPreSplit ('"' :: s ++ ['"']) = none := rfl
  have hfmq : fieldMatchQuoted ('"' :: s ++ ['"']) = none := rfl
  have hfmu : fieldMatchUnq ('"' :: s ++ ['"']) = none := rfl
  have hpats : extractPatterns ('"' :: s ++ ['"']) =
      [Pattern.regex s none] := by
    unfold extractPatterns
    rw [hkps]
    unfold epBody
    simp only [hcomp, parseRange, hrange, Option.map_none', hregex,
      hstrip, Bool.false_eq_true, if_false, if_true]
  have hshapes := shapes_false_of_head '"' (s ++ ['"']) (by decide)
  have hdf : determineField ('"' :: s ++ ['"']) [Pattern.regex s none] =
      some PatternField.items := by
    simp [determineField, hshapes.1, hshapes.2.1, hshapes.2.2.1,
      hshapes.2.2.2, patternDefaultField]
  have hsd : stripDash ('"' :: s ++ ['"']) = (false, '"' :: s ++ ['"']) := rfl
  have hrf : ipResolveField ('"' :: s ++ ['"']) =
      (none, '"' :: s ++ ['"']) := by
    unfold ipResolveField
    simp only [hfmq, hfmu]
  rw [instructionParserResult, htrim, if_neg (by simp), tokenize, hcolon,
    if_neg (by simp)]
  rw [parseTokensM]
  simp only [hsd, hrf]
  rw [stepAssign]
  simp only [hpats, hdf, List.isEmpty_cons, Bool.false_eq_true, if_false]
  rw [parseTokensM]
  simp [assignPats, PR.getF, PR.setF, emptyPR, PR.finalize, descJoin, jsTrim]

/-- Witness for C5 at the concrete phrase hello world. -/
theorem C5_quoted_phrase_amended_witness :
    instructionParserResult ('"' :: str ("hello world") ++ ['"']) =
      ⟨⟨[], []⟩, ⟨[Pattern.regex (str ("hello world")) none], []⟩,
        ⟨[], []⟩, ⟨[], []⟩, []⟩ :=
  C5_quoted_phrase_amended.1 (str ("hello world")) (by decide) (by decide)
    (by decide) (by decide) (by decide) (by decide)

/-- C6 counterexample: the instruction ABC contains no field-alias marker,
so the tokenizer returns it as the single token, but that token is not
treated as free text: it is classified by shape into the lines include
list and the description stays empty. -/
theorem C6_counterexample :
    hasWordColon (str ("ABC")) = false ∧
    tokenize (str ("ABC")) = [str ("ABC")] ∧
    (instructionParserResult (str ("ABC"))).lines.inc =
      [Pattern.value (str ("ABC")) none] ∧
    (instructionParserResult (str ("ABC"))).desc = [] := by
  refine ⟨by decide, by decide, by decide, by decide⟩

/-- C6 (amended): when the instruction contains no substring of a word
character followed by a colon, the tokenizer returns the entire string
unchanged as the single token (the token is still classified normally
afterwards, and need not become free text); splitting into several
whitespace-and-quote-aware tokens happens only when such a marker is
present. -/
theorem C6_single_token_amended :
    (∀ instruction : Str, hasWordColon instruction = false →
      tokenize instruction = [instruction]) ∧
    (∀ instruction : Str, 1 < (tokenize instruction).length →
      hasWordColon instruction = true) := by
  constructor
  · intro instruction h
    rw [tokenize, h]
    simp
  · intro instruction h
    by_cases hc : hasWordColon instruction = true
    · exact hc
    · exfalso
      rw [tokenize, if_neg (by simp [hc])] at h
      simp at h

/-- Witness for C6 at the concrete instruction hello world. -/
theorem C6_single_token_amended_witness :
    tokenize (str ("hello world")) = [str ("hello world")] :=
  C6_single_token_amended.1 (str ("hello world")) (by decide)

theorem classifyTail_value_check (f : PatternField) (kp kp' : Option Str)
    (body v : Str)
    (h : classifyTail f kp body = some (PData.value kp' v)) :
    (f = PatternField.items → digits14 v = true) ∧
    (f = PatternField.keys → matchKeys v = true) := by
  unfold classifyTail at h
  split at h
  · simp at h
  · split at h
    · simp at h
    · split at h
      · simp at h
      · split at h
        · simp at h
        · split at h
          · simp at h
          · rename_i h1 h2
            simp only [Option.some.injEq, PData.value.injEq] at h
            obtain ⟨-, rfl⟩ := h
            push_neg at h1 h2
            constructor
            · intro hf
              simpa using h2 hf
            · intro hf
              simpa using h1 hf

theorem psTail_value_check (f : PatternField) (body ts : Str)
    (f' : PatternField) (kp : Option Str) (v : Str)
    (h : psTail f body ts = some (f', PData.value kp v)) :
    (f' = PatternField.items → digits14 v = true) ∧
    (f' = PatternField.keys → matchKeys v = true) := by
  unfold psTail at h
  split at h
  · split at h
    · simp at h
    · split at h
      · rw [Option.map_eq_some'] at h
        rcases h with ⟨pd, hpd, hfp⟩
        simp only [Prod.mk.injEq] at hfp
        rw [hfp.2] at hpd
        rw [← hfp.1]
        exact classifyTail_value_check _ _ _ _ _ hpd
      · split at h
        · simp at h
        · simp at h
  · rw [Option.map_eq_some'] at h
    rcases h with ⟨pd, hpd, hfp⟩
    simp only [Prod.mk.injEq] at hfp
    rw [hfp.2] at hpd
    rw [← hfp.1]
    exact classifyTail_value_check _ _ _ _ _ hpd

theorem psAfterField_value_check (f : PatternField) (body ts : Str)
    (f' : PatternField) (kp : Option Str) (v : Str)
    (h : psAfterField f body ts = some (f', PData.value kp v)) :
    (f' = PatternField.items → digits14 v = true) ∧
    (f' = PatternField.keys → matchKeys v = true) := by
  unfold psAfterField at h
  split at h
  · simp at h
  · split at h
    · split at h
      · simp at h
      · exact psTail_value_check _ _ _ _ _ _ h
    · exact psTail_value_check _ _ _ _ _ _ h

/-- C10: a literal value under items compiles only when it is 1 to 4
digits, and under keys only when it matches the 5-to-6 uppercase
alphanumeric shape; otherwise parseSingleToken yields none, the store is
left untouched with no document created, and the concrete failing tokens
are routed to the description of the assembled result. -/
theorem C10_literal_validation :
    (∀ (t : Str) (f : PatternField) (kp : Option Str) (v : Str),
      parseSingleToken t = some (f, PData.value kp v) →
      (f = PatternField.items → digits14 v = true) ∧
      (f = PatternField.keys → matchKeys v = true)) ∧
    (∀ (store : List Str) (rawToken : Str) (w : Bool),
      parseSingleToken (stripDash rawToken).2 = none →
      parseAndStoreTokenE store rawToken w = Except.ok (none, store)) ∧
    parseSingleToken (str ("abcd")) = none ∧
    parseSingleToken (str ("items:HELLO")) = none ∧
    parseSingleToken (str ("key:TOOLONG99")) = none ∧
    (getPipelinePure [] (str ("items:HELLO"))).1 =
      ⟨⟨[], []⟩, ⟨[], []⟩, ⟨[], []⟩, ⟨[], []⟩, str ("items:HELLO")⟩ ∧
    (getPipelinePure [] (str ("items:HELLO"))).2 = [] := by
  refine ⟨?_, ?_, by decide, by decide, by decide, by decide, rfl⟩
  · intro t f kp v h
    unfold parseSingleToken at h
    exact psAfterField_value_check _ _ _ _ _ _ h
  · intro store rawToken w h
    unfold parseAndStoreTokenE parseAndStoreHappy
    simp only [h]

/-- Witness for C10 at the compiling token items:0050 and the rejected
token items:HELLO. -/
theorem C10_literal_validation_witness :
    ((PatternField.items = PatternField.items →
      digits14 (str ("0050")) = true) ∧
     (PatternField.items = PatternField.keys →
      matchKeys (str ("0050")) = true)) ∧
    parseAndStoreTokenE [] (str ("items:HELLO")) false =
      Except.ok (none, []) :=
  ⟨C10_literal_validation.1 (str ("items:0050")) PatternField.items none
      (str ("0050")) (by decide),
   C10_literal_validation.2.1 [] (str ("items:HELLO")) false (by decide)⟩

theorem infix_dropWhile (p : Char → Bool) (part l : Str) (hinf : part <:+: l)
    (hne : part ≠ [])
    (hhead : ∀ c, part.head? = some c → p c = false) :
    part <:+: l.dropWhile p := by
  rcases hinf with ⟨u, v, rfl⟩
  induction u with
  | nil =>
    cases part with
    | nil => exact absurd rfl hne
    | cons c part' =>
      rw [List.nil_append, List.cons_append, List.dropWhile_cons_of_neg
        (by simp [hhead c rfl])]
      exact ⟨[], v, by simp⟩
  | cons a u' ih =>
    simp only [List.cons_append, List.append_assoc] at ih ⊢
    by_cases hp : p a = true
    · rw [List.dropWhile_cons_of_pos hp]
      exact ih
    · rw [List.dropWhile_cons_of_neg (by simp [hp])]
      exact ⟨a :: u', v, by simp⟩

theorem infix_jsTrim (part l : Str) (hinf : part <:+: l) (hne : part ≠ [])
    (hhead : ∀ c, part.head? = some c → isJsSpace c = false)
    (hlast : ∀ c, part.getLast? = some c → isJsSpace c = false) :
    part <:+: jsTrim l := by
  unfold jsTrim
  have h1 : part <:+: l.dropWhile isJsSpace :=
    infix_dropWhile _ _ _ hinf hne hhead
  have h2 : part.reverse <:+: (l.dropWhile isJsSpace).reverse :=
    List.reverse_infix.mpr h1
  have h3 : part.reverse <:+:
      ((l.dropWhile isJsSpace).reverse.dropWhile isJsSpace) := by
    apply infix_dropWhile _ _ _ h2
    · simp [hne]
    · intro c hc
      rw [List.head?_reverse] at hc
      exact hlast c hc
  have h4 := List.reverse_infix.mpr h3
  rw [List.reverse_reverse] at h4
  exact h4

theorem infix_map_lower (part l : Str) (h : part <:+: l) :
    jsToLower part <:+: jsToLower l := by
  rcases h with ⟨u, v, rfl⟩
  exact ⟨jsToLower u, jsToLower v, by simp [jsToLower]⟩

theorem mem_descJoin_infix (part : Str) (descs : List Str)
    (h : part ∈ descs) : part <:+: descJoin descs := by
  induction descs with
  | nil => simp at h
  | cons d ds ih =>
    rcases List.mem_cons.mp h with rfl | h2
    · exact ⟨[], ' ' :: descJoin ds, by simp [descJoin]⟩
    · obtain ⟨u, v, he⟩ := ih h2
      refine ⟨(d ++ [' ']) ++ u, v, ?_⟩
      simp only [List.append_assoc] at he ⊢
      rw [he]
      simp [descJoin]

theorem quotedAlt_some_head (q : Char) (l tok r : Str)
    (h : quotedAlt q l = some (tok, r)) :
    ∃ c rest, tok = c :: rest ∧ isWordChar c = true := by
  unfold quotedAlt at h
  split at h
  · rename_i c1 rest1 hd
    split at h
    · simp at h
    · rename_i hemp
      split at h
      · simp at h
      · split at h
        · rename_i x midrev heq
          simp at h
          obtain ⟨-, htok, -⟩ := h
          cases htw : l.takeWhile isWordChar with
          | nil =>
            rw [htw] at hemp
            simp at hemp
          | cons c w' =>
            refine ⟨c, w' ++ ':' :: q ::
              (rest1.takeWhile (fun c => c != q) ++ [q]), ?_, ?_⟩
            · rw [← htok, htw]
              simp
            · exact List.mem_takeWhile_imp (htw ▸ List.mem_cons_self c w')
        · simp at h
  · simp at h

theorem jsTokensF_shape (fuel : Nat) :
    ∀ (l : Str), ∀ part ∈ jsTokensF fuel l,
      (∃ c rest, part = c :: rest ∧ isWordChar c = true) ∨
      part.all (fun c => !isJsSpace c) = true := by
  induction fuel with
  | zero => intro l part h; simp [jsTokensF] at h
  | succ fuel ih =>
    intro l part h
    cases l with
    | nil => simp [jsTokensF] at h
    | cons c rest =>
      rw [jsTokensF] at h
      split at h
      · exact ih _ part h
      · split at h
        · rename_i tok r hq
          rcases List.mem_cons.mp h with rfl | h2
          · exact Or.inl (quotedAlt_some_head _ _ _ _ hq)
          · exact ih _ part h2
        · split at h
          · rename_i tok r hq
            rcases List.mem_cons.mp h with rfl | h2
            · exact Or.inl (quotedAlt_some_head _ _ _ _ hq)
            · exact ih _ part h2
          · rcases List.mem_cons.mp h with rfl | h2
            · refine Or.inr ?_
              rw [List.all_eq_true]
              intro x hx
              have := List.mem_takeWhile_imp hx
              simpa using this
            · exact ih _ part h2

theorem tokenizeInputAux_no_reserved (parts : List Str) (tks : List TokTag)
    (descs : List Str)
    (hi : ∀ tk ∈ tks, reservedBracket (stripDash tk.tokenStr).2 = false) :
    ∀ tk ∈ (tokenizeInputAux parts tks descs).1,
      reservedBracket (stripDash tk.tokenStr).2 = false := by
  induction parts generalizing tks descs with
  | nil => exact hi
  | cons part rest ih =>
    rw [tokenizeInputAux]
    split
    · exact ih _ _ hi
    · split
      · rename_i hres hdyn
        apply ih
        intro tk htk
        rcases List.mem_append.mp htk with h1 | h2
        · exact hi tk h1
        · have htk2 : tk = ⟨if (stripDash part).1 then
              '-' :: (stripDash part).2 else (stripDash part).2,
              (stripDash part).1⟩ := by simpa using h2
          rw [htk2]
          have hsd : (stripDash (if (stripDash part).1 then
              '-' :: (stripDash part).2 else (stripDash part).2)).2 =
              (stripDash part).2 := by
            cases part with
            | nil => rfl
            | cons c r =>
              by_cases hc : c = '-'
              · subst hc
                simp [stripDash]
              · simp [stripDash, hc]
          rw [hsd]
          simpa using hres
      · exact ih _ _ hi

theorem tokenizeInputAux_desc_mono (parts : List Str) (tks : List TokTag)
    (descs : List Str) :
    ∀ x ∈ descs, x ∈ (tokenizeInputAux parts tks descs).2 := by
  induction parts generalizing tks descs with
  | nil => intro x hx; exact hx
  | cons part rest ih =>
    intro x hx
    rw [tokenizeInputAux]
    split
    · exact ih _ _ x (List.mem_append_left _ hx)
    · split
      · exact ih _ _ x hx
      · exact ih _ _ x (List.mem_append_left _ hx)

theorem tokenizeInputAux_desc_mem (parts : List Str) (tks : List TokTag)
    (descs : List Str) (part : Str) (hmem : part ∈ parts)
    (hres : reservedBracket (stripDash part).2 = true) :
    part ∈ (tokenizeInputAux parts tks descs).2 := by
  induction parts generalizing tks descs with
  | nil => simp at hmem
  | cons p rest ih =>
    rcases List.mem_cons.mp hmem with rfl | h2
    · rw [tokenizeInputAux]
      split
      · exact tokenizeInputAux_desc_mono _ _ _ part
          (List.mem_append_right _ (List.mem_singleton_self part))
      · rename_i hres2
        exact absurd hres (by simpa using hres2)
    · rw [tokenizeInputAux]
      split
      · exact ih _ _ h2
      · split
        · exact ih _ _ h2
        · exact ih _ _ h2

/-- C9: in the cached pipeline path, a token beginning with a bracketed
reserved word (ITEM, ITEMS, KEY, KEYS, BRAND, BRANDS, LINE, LINES or ACC,
case-insensitively) is never a dynamic token — every token produced by
tokenizeInput fails the reserved test — and every scanned part that passes
the reserved test ends up, lower-cased, inside the returned description. -/
theorem C9_reserved_brackets :
    ∀ input : Str,
      (∀ tk ∈ (tokenizeInput input).1,
        reservedBracket (stripDash tk.tokenStr).2 = false) ∧
      (∀ part ∈ jsTokens input,
        reservedBracket (stripDash part).2 = true →
        jsToLower part <:+: (tokenizeInput input).2) := by
  intro input
  constructor
  · intro tk htk
    exact tokenizeInputAux_no_reserved (jsTokens input) [] [] (by simp) tk htk
  · intro part hmem hres
    have hpartne : part ≠ [] := by
      intro h
      rw [h] at hres
      simp [stripDash, reservedBracket] at hres
    have hhead : ∃ c rest, part = c :: rest ∧ (c = '[' ∨ c = '-') := by
      cases part with
      | nil => simp at hpartne
      | cons c rest =>
        by_cases hc : c = '-'
        · exact ⟨c, rest, rfl, Or.inr hc⟩
        · refine ⟨c, rest, rfl, Or.inl ?_⟩
          have hsd : stripDash (c :: rest) = (false, c :: rest) := by
            simp [stripDash, hc]
          rw [hsd] at hres
          simp only [reservedBracket, Bool.and_eq_true, beq_iff_eq] at hres
          exact hres.1
    obtain ⟨c, prest, rfl, hc⟩ := hhead
    have hword : isWordChar c = false := by
      rcases hc with rfl | rfl <;> decide
    have hshape := jsTokensF_shape ((c :: prest ++ [])).length input (c :: prest)
    have hshape2 := jsTokensF_shape input.length input (c :: prest)
      (by rw [jsTokens] at hmem; exact hmem)
    have hfree : (c :: prest).all (fun x => !isJsSpace x) = true := by
      rcases hshape2 with ⟨c2, r2, he, hw⟩ | hf
      · rw [List.cons.injEq] at he
        rw [he.1] at hword
        rw [hword] at hw
        simp at hw
      · exact hf
    have hh : ∀ x, (c :: prest).head? = some x → isJsSpace x = false := by
      intro x hx
      have hmemx := List.mem_of_mem_head? hx
      have := List.all_eq_true.mp hfree x hmemx
      simpa using this
    have hl : ∀ x, (c :: prest).getLast? = some x → isJsSpace x = false := by
      intro x hx
      have hmemx := List.mem_of_mem_getLast? hx
      have := List.all_eq_true.mp hfree x hmemx
      simpa using this
    have hdesc : (c :: prest) ∈ (tokenizeInputAux (jsTokens input) [] []).2 :=
      tokenizeInputAux_desc_mem _ _ _ _ hmem hres
    have hinf1 := mem_descJoin_infix _ _ hdesc
    have hinf2 := infix_jsTrim _ _ hinf1 hpartne hh hl
    exact infix_map_lower _ _ hinf2

/-- Witness for C9 at the concrete input of the reserved token ACC followed
by a free word. -/
theorem C9_reserved_brackets_witness :
    jsToLower (str ("[ACC]")) <:+: (tokenizeInput (str ("[ACC] x"))).2 :=
  (C9_reserved_brackets (str ("[ACC] x"))).2 (str ("[ACC]")) (by decide)
    (by decide)

/-- Total number of include and exclude entries across the four fields. -/
def totalEntries (r : PR) : Nat :=
  r.keys.inc.length + r.keys.exc.length + r.items.inc.length +
  r.items.exc.length + r.lines.inc.length + r.lines.exc.length +
  r.brands.inc.length + r.brands.exc.length

theorem assignPats_count (r : PR) (pats : List Pattern) (f : PatternField)
    (ex : Bool) :
    totalEntries (assignPats r pats f ex) = totalEntries r + pats.length ∧
    (assignPats r pats f ex).descToks = r.descToks := by
  cases f <;> cases ex <;>
    simp [assignPats, PR.getF, PR.setF, totalEntries] <;> omega

theorem epBody_len_le (kp : Option Str) (pv : Str) :
    (epBody kp pv).length ≤ 1 := by
  unfold epBody
  split
  · split <;> simp
  · split
    · simp
    · split <;> simp

theorem extractPatterns_len_le (v : Str) : (extractPatterns v).length ≤ 1 := by
  unfold extractPatterns
  split
  · apply epBody_len_le
  · apply epBody_len_le

theorem compParse_isSome_of_isCompPat (pv : Str) (hlt : noLT pv = true)
    (h : isCompPat pv = true) : (compParse pv).isSome = true := by
  cases pv with
  | nil => simp [isCompPat] at h
  | cons c rest =>
    cases rest with
    | nil => simp [isCompPat] at h
    | cons r rest2 =>
      have h1 : (c == '>' || c == '<') = true := by
        simp only [isCompPat, Bool.and_eq_true] at h
        exact h.1
      have hrest : noLT (r :: rest2) = true := by
        simp only [noLT, List.all_cons, Bool.and_eq_true] at hlt ⊢
        exact hlt.2
      rw [compParse]
      rw [h1]
      simp only [if_true]
      by_cases hr : (r == '=') = true
      · rw [hr]
        simp only [if_true]
        by_cases h2 : (!rest2.isEmpty && noLT rest2) = true
        · rw [h2]
          simp
        · rw [Bool.not_eq_true] at h2
          rw [h2]
          simp only [Bool.false_eq_true, if_false, hrest, if_true]
          simp
      · rw [Bool.not_eq_true] at hr
        rw [hr]
        simp only [Bool.false_eq_true, if_false, hrest, if_true]
        simp

theorem epBody_ne_nil (kp : Option Str) (pv : Str) (hlt : noLT pv = true) :
    epBody kp pv ≠ [] := by
  unfold epBody
  split
  · rename_i hcomp
    have hsome := compParse_isSome_of_isCompPat pv hlt hcomp
    unfold parseComparison
    cases hcp : compParse pv with
    | none =>
      rw [hcp] at hsome
      simp at hsome
    | some x => simp [hcp]
  · split
    · simp
    · split <;> simp

theorem epBody_ne_nil_of_not_comp (kp : Option Str) (pv : Str)
    (h : isCompPat pv = false) : epBody kp pv ≠ [] := by
  unfold epBody
  rw [h]
  simp only [Bool.false_eq_true, if_false]
  split
  · simp
  · split <;> simp

theorem keyPreSplit_noLT (v p rest : Str)
    (h : keyPreSplit v = some (p, rest)) : noLT rest = true := by
  unfold keyPreSplit at h
  split at h
  · split at h
    · split at h
      · split at h
        · split at h
          · simp at h
          · rename_i hcond
            simp only [Option.some.injEq, Prod.mk.injEq] at h
            rw [← h.2]
            by_contra hZ
            rw [Bool.not_eq_true] at hZ
            exact hcond (by rw [hZ]; simp)
        · simp at h
      · simp at h
    · simp at h
  · simp at h

theorem extractPatterns_ne_nil_of_noLT (v : Str) (hlt : noLT v = true) :
    extractPatterns v ≠ [] := by
  unfold extractPatterns
  split
  · rename_i p rest hk
    exact epBody_ne_nil _ _ (keyPreSplit_noLT _ _ _ hk)
  · exact epBody_ne_nil _ _ hlt

theorem extractPatterns_ne_nil_of_matchItems (v : Str)
    (h : matchItems v = true) : extractPatterns v ≠ [] := by
  cases v with
  | nil => simp [matchItems] at h
  | cons c rest =>
    have halnum : isUpperAlnum c = true := by
      simp only [matchItems, Bool.and_eq_true, Bool.or_eq_true] at h
      rcases h.1.2 with h6 | h5
      · have : c ∈ (c :: rest).take 6 := by simp [List.take_succ_cons]
        exact List.all_eq_true.mp h6 c this
      · have : c ∈ (c :: rest).take 5 := by simp [List.take_succ_cons]
        exact List.all_eq_true.mp h5.1 c this
    have hcnb : (c == '[') = false := by
      simp
      intro hcp
      rw [hcp] at halnum
      simp [isUpperAlnum] at halnum
    have hkp : keyPreSplit (c :: rest) = none := by
      simp [keyPreSplit, hcnb]
    have hcomp : isCompPat (c :: rest) = false := by
      apply isCompPat_head_false
      simp
      constructor <;> intro hcp <;> rw [hcp] at halnum <;>
        simp [isUpperAlnum] at halnum
    unfold extractPatterns
    rw [hkp]
    exact epBody_ne_nil_of_not_comp _ _ hcomp

theorem fieldMatchQuoted_noLT (l a v : Str)
    (h : fieldMatchQuoted l = some (a, v)) : noLT v = true := by
  unfold fieldMatchQuoted at h
  split at h
  · split at h
    · simp at h
    · split at h
      · split at h
        · split at h
          · rename_i hcond
            simp only [Bool.and_eq_true] at hcond
            simp only [Option.some.injEq, Prod.mk.injEq] at h
            rw [← h.2]
            exact hcond.2
          · simp at h
        · simp at h
      · simp at h
  · simp at h

theorem fieldMatchUnq_noLT (l a v : Str)
    (h : fieldMatchUnq l = some (a, v)) : noLT v = true := by
  unfold fieldMatchUnq at h
  split at h
  · split at h
    · simp at h
    · rename_i hcond
      simp only [Option.some.injEq, Prod.mk.injEq] at h
      rw [← h.2]
      by_contra hZ
      rw [Bool.not_eq_true] at hZ
      exact hcond (by rw [hZ]; simp)
  · simp at h

theorem ipResolveField_some_noLT (t : Str) (f : PatternField) (v : Str)
    (h : ipResolveField t = (some f, v)) : noLT v = true := by
  unfold ipResolveField at h
  split at h
  · rename_i a v2 hq
    simp only [Prod.mk.injEq] at h
    rw [← h.2]
    exact fieldMatchQuoted_noLT _ _ _ hq
  · split at h
    · rename_i a v2 hu
      simp only [Prod.mk.injEq] at h
      rw [← h.2]
      exact fieldMatchUnq_noLT _ _ _ hu
    · simp only [Prod.mk.injEq] at h
      exact absurd h.1 (by simp)

theorem stepAssign_count (acc : PR) (ex : Bool) (fOpt : Option PatternField)
    (value tok : Str)
    (h : ∀ f, fOpt = some f → extractPatterns value ≠ []) :
    totalEntries (stepAssign acc ex fOpt value tok) +
      (stepAssign acc ex fOpt value tok).descToks.length =
    totalEntries acc + acc.descToks.length + 1 := by
  simp only [stepAssign]
  by_cases hemp : (extractPatterns value).isEmpty = true
  · rw [if_pos hemp]
    cases fOpt with
    | none =>
      simp only [Option.isNone_none, if_true]
      simp [PR.addDesc, totalEntries]
      omega
    | some f => exact absurd (List.isEmpty_iff.mp hemp) (h f rfl)
  · have hne : extractPatterns value ≠ [] := fun hc => hemp (by simp [hc])
    have hlen : (extractPatterns value).length = 1 := by
      have h1 := extractPatterns_len_le value
      have h0 : (extractPatterns value).length ≠ 0 := by simpa using hne
      omega
    rw [if_neg hemp]
    cases fOpt with
    | some f =>
      dsimp only
      have hc := assignPats_count acc (extractPatterns value) f ex
      have hd : (assignPats acc (extractPatterns value) f ex).descToks.length
          = acc.descToks.length := by rw [hc.2]
      rw [hc.1, hlen, hd]
      omega
    | none =>
      dsimp only
      cases hdf : determineField value (extractPatterns value) with
      | some f =>
        dsimp only
        have hc := assignPats_count acc (extractPatterns value) f ex
        have hd : (assignPats acc (extractPatterns value) f ex).descToks.length
            = acc.descToks.length := by rw [hc.2]
        rw [hc.1, hlen, hd]
        omega
      | none =>
        dsimp only
        simp [PR.addDesc, totalEntries]
        omega

theorem parseTokensM_count : ∀ (n : Nat) (toks : List Str) (acc : PR),
    toks.length ≤ n →
    totalEntries (parseTokensM toks acc).1 +
      (parseTokensM toks acc).1.descToks.length + (parseTokensM toks acc).2 =
    totalEntries acc + acc.descToks.length + toks.length := by
  intro n
  induction n with
  | zero =>
    intro toks acc h
    have htoks : toks = [] := List.length_eq_zero.mp (Nat.le_zero.mp h)
    subst htoks
    simp [parseTokensM]
  | succ n ih =>
    intro toks acc h
    cases toks with
    | nil => simp [parseTokensM]
    | cons tok rest =>
      rw [parseTokensM.eq_def]
      dsimp only
      rcases hfv : ipResolveField (stripDash tok).2 with ⟨fo, v⟩
      dsimp only
      cases fo with
      | some f =>
        dsimp only
        have hstep := stepAssign_count acc (stripDash tok).1 (some f) v tok
          (fun g _ => extractPatterns_ne_nil_of_noLT v
            (ipResolveField_some_noLT _ f v hfv))
        have hr : rest.length ≤ n := by
          simp only [List.length_cons] at h
          omega
        have hih := ih rest (stepAssign acc (stripDash tok).1 (some f) v tok) hr
        have hlc : (tok :: rest).length = rest.length + 1 := rfl
        omega
      | none =>
        dsimp only
        cases rest with
        | nil =>
          dsimp only
          have hstep := stepAssign_count acc (stripDash tok).1 none v tok
            (fun g hg => by simp at hg)
          simp only [parseTokensM]
          simp only [List.length_cons, List.length_nil]
          omega
        | cons next rest2 =>
          dsimp only
          by_cases hm : matchItems (v ++ ' ' :: next) = true
          · rw [if_pos hm]
            dsimp only
            have hpats_ne := extractPatterns_ne_nil_of_matchItems _ hm
            have hlen1 : (extractPatterns (v ++ ' ' :: next)).length = 1 := by
              have h1 := extractPatterns_len_le (v ++ ' ' :: next)
              have h0 : (extractPatterns (v ++ ' ' :: next)).length ≠ 0 := by
                simpa using hpats_ne
              omega
            have hasg := assignPats_count acc
              (extractPatterns (v ++ ' ' :: next)) PatternField.items
              (stripDash tok).1
            have h1 := hasg.1
            rw [hlen1] at h1
            have h2 : (assignPats acc (extractPatterns (v ++ ' ' :: next))
                PatternField.items (stripDash tok).1).descToks.length
                = acc.descToks.length := by rw [hasg.2]
            have hr2 : rest2.length ≤ n := by
              simp only [List.length_cons] at h
              omega
            have hih := ih rest2 (assignPats acc
              (extractPatterns (v ++ ' ' :: next)) PatternField.items
              (stripDash tok).1) hr2
            simp only [List.length_cons]
            omega
          · rw [if_neg hm]
            have hstep := stepAssign_count acc (stripDash tok).1 none v tok
              (fun g hg => by simp at hg)
            have hr : (next :: rest2).length ≤ n := by
              simp only [List.length_cons] at h ⊢
              omega
            have hih := ih (next :: rest2)
              (stepAssign acc (stripDash tok).1 none v tok) hr
            simp only [List.length_cons] at hih ⊢
            omega

/-- C8: token accounting.  Over the token list of any instruction, starting
from the empty result, the number of patterns stored across all include and
exclude lists, plus the number of tokens appended to the description, plus
the number of two-token item merges (each merge consumes two tokens but is
already counted once as an items entry), equals the number of input tokens:
every token lands in exactly one field list or the description, and a merged
pair counts as the single items entry it produced. -/
theorem C8_token_accounting (instruction : Str) :
    totalEntries (parseTokensM (tokenize instruction) emptyPR).1 +
      (parseTokensM (tokenize instruction) emptyPR).1.descToks.length +
      (parseTokensM (tokenize instruction) emptyPR).2 =
    (tokenize instruction).length := by
  have h := parseTokensM_count (tokenize instruction).length
    (tokenize instruction) emptyPR le_rfl
  simpa [emptyPR, totalEntries] using h
